import Mathlib

set_option maxRecDepth 100000

/-!
# Verification of the OntoSight storage/sampling engine

Shallow embedding of the storage engine of the `ontosight` repository
(`src/ontosight/core/storage/{graph,hypergraph,list,node}.py` and
`src/ontosight/utils.py`) together with proofs of the specification's
testable properties.

Modelling conventions:
* Python `dict`s are insertion-ordered association lists
  (`List (String × α)`) with last-write-wins update-in-place semantics.
* Python `set`s are duplicate-free lists; insertion order is fixed by the
  model (Python's set iteration order is unspecified; every property proved
  here is about membership, so the choice is immaterial).
* Python's global random number generator is made explicit: every function
  that consumes randomness takes a `seed : Nat` argument; distinct calls in
  Python correspond to distinct seeds.
* Machine integers are `Nat` with explicit `% 2 ^ 32` (`w32`) where the
  SHA-256 arithmetic overflows.
* A pydantic record (`model_dump()` result) is modelled as a flat field
  map `Record`.
-/

/-- A raw caller record: the result of `model_dump()`, modelled as a flat
insertion-ordered mapping from field names to string values. -/
abbrev Record := List (String × String)

/-! ## Python dict / set primitives -/

/-- Python `d[k]` / `d.get(k)` / `k in d`: first (and, by construction,
only) binding of the key. -/
def dlookup (k : String) : List (String × α) → Option α
  | [] => none
  | p :: rest => if p.1 = k then some p.2 else dlookup k rest

/-- Python `d[k] = v`: overwrite in place if the key exists (keeping its
position, last write wins), otherwise append. -/
def dinsert (k : String) (v : α) : List (String × α) → List (String × α)
  | [] => [(k, v)]
  | p :: rest => if p.1 = k then (k, v) :: rest else p :: dinsert k v rest

/-- Python `d[k] = f(d[k])` on an existing key (e.g. `+= 1`, `.append`,
`.add`); a missing key is left untouched — at every call site in the source
the key is guaranteed present (Python would raise `KeyError` otherwise). -/
def dmodify (k : String) (f : α → α) : List (String × α) → List (String × α)
  | [] => []
  | p :: rest => if p.1 = k then (k, f p.2) :: rest else p :: dmodify k f rest

/-- Python `s.add(x)` on a set modelled as a duplicate-free list. -/
def sinsert (x : String) (s : List String) : List String :=
  if x ∈ s then s else s ++ [x]

/-- Python `set(l)`: duplicate-free list of the elements of `l`. -/
def sdedup (l : List String) : List String :=
  l.foldl (fun s x => sinsert x s) []

theorem dinsert_dlookup (k k' : String) (v : α) (d : List (String × α)) :
    dlookup k' (dinsert k v d) = if k' = k then some v else dlookup k' d := by
  induction d with
  | nil =>
    rcases eq_or_ne k' k with h | h
    · subst h; simp [dinsert, dlookup]
    · have h3 : ¬(k = k') := fun hc => h hc.symm
      simp [dinsert, dlookup, h, h3]
  | cons p rest ih =>
    by_cases h1 : p.1 = k
    · rcases eq_or_ne k' k with h2 | h2
      · simp [dinsert, dlookup, h1, h2]
      · have h3 : ¬(k = k') := fun hc => h2 hc.symm
        simp [dinsert, dlookup, h1, h2, h3]
    · by_cases h2 : p.1 = k'
      · have hne : ¬(k' = k) := fun hc => h1 (h2.trans hc)
        simp [dinsert, dlookup, h1, h2, hne]
      · simp [dinsert, dlookup, h1, h2, ih]

theorem dmodify_dlookup (k k' : String) (f : α → α) (d : List (String × α)) :
    dlookup k' (dmodify k f d) =
      if k' = k then (dlookup k d).map f else dlookup k' d := by
  induction d with
  | nil => simp [dmodify, dlookup]
  | cons p rest ih =>
    by_cases h1 : p.1 = k
    · rcases eq_or_ne k' k with h2 | h2
      · simp [dmodify, dlookup, h1, h2]
      · have h3 : ¬(k = k') := fun hc => h2 hc.symm
        simp [dmodify, dlookup, h1, h2, h3]
    · by_cases h2 : p.1 = k'
      · have hne : ¬(k' = k) := fun hc => h1 (h2.trans hc)
        simp [dmodify, dlookup, h1, h2, hne]
      · simp [dmodify, dlookup, h1, h2, ih]

theorem sinsert_mem (x y : String) (s : List String) :
    y ∈ sinsert x s ↔ y = x ∨ y ∈ s := by
  unfold sinsert
  by_cases h : x ∈ s
  · simp only [if_pos h]
    constructor
    · exact Or.inr
    · rintro (rfl | hy)
      · exact h
      · exact hy
  · simp only [if_neg h, List.mem_append, List.mem_singleton]
    tauto

theorem sinsert_nodup (x : String) (s : List String) (h : s.Nodup) :
    (sinsert x s).Nodup := by
  unfold sinsert
  by_cases hx : x ∈ s
  · simpa [hx] using h
  · simp only [if_neg hx, List.nodup_append, List.nodup_singleton]
    exact ⟨h, True.intro, by simpa [List.disjoint_singleton] using hx⟩

theorem sinsert_sub (x : String) (s : List String) : s ⊆ sinsert x s := by
  intro y hy
  exact (sinsert_mem x y s).mpr (Or.inr hy)

/-- Generic invariant preservation along a `List.foldl`. -/
theorem foldl_invariant {α β : Type _} (P : β → Prop) (f : β → α → β)
    (l : List α) (b : β) (h0 : P b)
    (hstep : ∀ acc x, x ∈ l → P acc → P (f acc x)) : P (l.foldl f b) := by
  induction l generalizing b with
  | nil => exact h0
  | cons x xs ih =>
    exact ih (f b x) (hstep b x (by simp) h0)
      (fun acc y hy hacc => hstep acc y (by simp [hy]) hacc)

/-! ## SHA-256 (the hash behind `short_id_from_str` in `src/ontosight/utils.py`)

The source calls `hashlib.sha256(s.encode("utf-8")).hexdigest()`.  The
standard library's SHA-256 is embedded here in full (FIPS 180-4) so that
the identity claims are settled against the real hash. -/

/-- Truncation to a 32-bit word. -/
def w32 (n : Nat) : Nat := n % 4294967296

/-- 32-bit rotate right (the two summands occupy disjoint bit ranges). -/
def rotr (n x : Nat) : Nat := x / 2 ^ n + x % 2 ^ n * 2 ^ (32 - n)

/-- Logical shift right. -/
def shr (n x : Nat) : Nat := x / 2 ^ n

/-- Bitwise complement on 32-bit words (valid for `x < 2 ^ 32`). -/
def wnot (x : Nat) : Nat := 4294967295 - x

def shaCh (e f g : Nat) : Nat := (e &&& f) ^^^ (wnot e &&& g)

def shaMaj (a b c : Nat) : Nat := (a &&& b) ^^^ (a &&& c) ^^^ (b &&& c)

def bigSigma0 (a : Nat) : Nat := rotr 2 a ^^^ rotr 13 a ^^^ rotr 22 a

def bigSigma1 (e : Nat) : Nat := rotr 6 e ^^^ rotr 11 e ^^^ rotr 25 e

def smallSigma0 (x : Nat) : Nat := rotr 7 x ^^^ rotr 18 x ^^^ shr 3 x

def smallSigma1 (x : Nat) : Nat := rotr 17 x ^^^ rotr 19 x ^^^ shr 10 x

/-- The 64 SHA-256 round constants. -/
def sha256K : List Nat :=
  [1116352408, 1899447441, 3049323471, 3921009573, 961987163, 1508970993,
   2453635748, 2870763221, 3624381080, 310598401, 607225278, 1426881987,
   1925078388, 2162078206, 2614888103, 3248222580, 3835390401, 4022224774,
   264347078, 604807628, 770255983, 1249150122, 1555081692, 1996064986,
   2554220882, 2821834349, 2952996808, 3210313671, 3336571891, 3584528711,
   113926993, 338241895, 666307205, 773529912, 1294757372, 1396182291,
   1695183700, 1986661051, 2177026350, 2456956037, 2730485921, 2820302411,
   3259730800, 3345764771, 3516065817, 3600352804, 4094571909, 275423344,
   430227734, 506948616, 659060556, 883997877, 958139571, 1322822218,
   1537002063, 1747873779, 1955562222, 2024104815, 2227730452, 2361852424,
   2428436474, 2756734187, 3204031479, 3329325298]

/-- A SHA-256 hash state: eight 32-bit words. -/
structure Hash8 where
  h0 : Nat
  h1 : Nat
  h2 : Nat
  h3 : Nat
  h4 : Nat
  h5 : Nat
  h6 : Nat
  h7 : Nat
deriving Repr, DecidableEq

/-- The SHA-256 initial hash value. -/
def sha256H0 : Hash8 :=
  ⟨1779033703, 3144134277, 1013904242, 2773480762,
   1359893119, 2600822924, 528734635, 1541459225⟩

/-- Big-endian byte decomposition of `n` into `k` bytes. -/
def toBytesBE (k n : Nat) : List Nat :=
  ((List.range k).reverse).map (fun i => n / 2 ^ (8 * i) % 256)

/-- Big-endian word from a byte list. -/
def fromBytesBE (bs : List Nat) : Nat :=
  bs.foldl (fun acc b => acc * 256 + b) 0

/-- SHA-256 message schedule: extend the 16 chunk words to 64 words. -/
def shaSchedule : Nat → List Nat → List Nat
  | 0, ws => ws
  | t + 1, ws =>
    let i := ws.length
    let wt := w32 (smallSigma1 (ws.getD (i - 2) 0) + ws.getD (i - 7) 0 +
      smallSigma0 (ws.getD (i - 15) 0) + ws.getD (i - 16) 0)
    shaSchedule t (ws ++ [wt])

/-- One SHA-256 compression round. -/
def shaRound (st : Hash8) (kw : Nat × Nat) : Hash8 :=
  let t1 := w32 (st.h7 + bigSigma1 st.h4 + shaCh st.h4 st.h5 st.h6 + kw.1 + kw.2)
  let t2 := w32 (bigSigma0 st.h0 + shaMaj st.h0 st.h1 st.h2)
  ⟨w32 (t1 + t2), st.h0, st.h1, st.h2, w32 (st.h3 + t1), st.h4, st.h5, st.h6⟩

/-- Compress one 64-byte chunk into the running hash. -/
def shaCompress (h : Hash8) (chunk : List Nat) : Hash8 :=
  let ws0 := (List.range 16).map (fun i => fromBytesBE ((chunk.drop (4 * i)).take 4))
  let ws := shaSchedule 48 ws0
  let f := (sha256K.zip ws).foldl shaRound h
  ⟨w32 (h.h0 + f.h0), w32 (h.h1 + f.h1), w32 (h.h2 + f.h2), w32 (h.h3 + f.h3),
   w32 (h.h4 + f.h4), w32 (h.h5 + f.h5), w32 (h.h6 + f.h6), w32 (h.h7 + f.h7)⟩

/-- Split into 64-byte chunks (structural recursion on a fuel counter so
that the kernel can evaluate it; the fuel in `chunks64` always suffices
because every step consumes at least one byte). -/
def chunks64Go : Nat → List Nat → List (List Nat)
  | 0, _ => []
  | fuel + 1, bs => if bs.isEmpty then [] else bs.take 64 :: chunks64Go fuel (bs.drop 64)

/-- Split into 64-byte chunks. -/
def chunks64 (bs : List Nat) : List (List Nat) :=
  chunks64Go (bs.length + 1) bs

/-- SHA-256 padding: `0x80`, zeros to 56 mod 64, then the 64-bit big-endian
bit length. -/
def shaPad (msg : List Nat) : List Nat :=
  let l := msg.length
  msg ++ [0x80] ++ List.replicate ((119 - l % 64) % 64) 0 ++
    toBytesBE 8 (8 * l % 2 ^ 64)

/-- The SHA-256 digest state of a byte message. -/
def sha256 (msg : List Nat) : Hash8 :=
  (chunks64 (shaPad msg)).foldl shaCompress sha256H0

/-- The 32 digest bytes. -/
def sha256Bytes (msg : List Nat) : List Nat :=
  let h := sha256 msg
  toBytesBE 4 h.h0 ++ toBytesBE 4 h.h1 ++ toBytesBE 4 h.h2 ++ toBytesBE 4 h.h3 ++
  toBytesBE 4 h.h4 ++ toBytesBE 4 h.h5 ++ toBytesBE 4 h.h6 ++ toBytesBE 4 h.h7

/-- Lowercase hex digit. -/
def hexDigit (n : Nat) : Char :=
  if n < 10 then Char.ofNat (48 + n) else Char.ofNat (87 + n)

/-- `hexdigest()`: two lowercase hex characters per digest byte. -/
def sha256HexChars (msg : List Nat) : List Char :=
  (sha256Bytes msg).flatMap (fun b => [hexDigit (b / 16), hexDigit (b % 16)])

/-- UTF-8 encoding of one character (`str.encode("utf-8")`). -/
def encodeChar (c : Char) : List Nat :=
  let n := c.toNat
  if n < 128 then [n]
  else if n < 2048 then [192 + n / 64, 128 + n % 64]
  else if n < 65536 then [224 + n / 4096, 128 + n / 64 % 64, 128 + n % 64]
  else [240 + n / 262144, 128 + n / 4096 % 64, 128 + n / 64 % 64, 128 + n % 64]

/-- `s.encode("utf-8")` as a byte list. -/
def utf8Bytes (s : String) : List Nat :=
  s.data.flatMap encodeChar

/-- `short_id_from_str` from `src/ontosight/utils.py`: the first 6 hex
digits of the SHA-256 of the UTF-8 encoding of `s`. -/
def short_id_from_str (s : String) : String :=
  String.mk ((sha256HexChars (utf8Bytes s)).take 6)

/-! ## Identity assignment -/

/-- Modelled from the spec: `get_model_id` is imported by every store from
`ontosight.utils` but is not defined under `src/`; the spec describes the
scheme as a deterministic "content hash of the serialized record".  The
serialization is a canonical flat rendering of the `model_dump()` mapping. -/
def serializeRecord (r : Record) : String :=
  r.foldl (fun acc p => acc ++ p.1 ++ "=" ++ p.2 ++ ";") ""

/-- Modelled from the spec: `get_model_id` — deterministic content-hash ID
of a record, via the repository's `short_id_from_str`. -/
def get_model_id (r : Record) : String :=
  short_id_from_str (serializeRecord r)

/-- Modelled from the spec: `get_random_id` (imported by the Hypergraph
Store from `ontosight.utils`, not defined under `src/`) generates "a fresh
random ID per call"; the RNG draw is made explicit as a `seed` so that each
call site consumes a distinct seed. -/
def get_random_id (seed : Nat) : String :=
  "rnd-" ++ toString seed

/-- Modelled from the spec: `default_label_formatter` (imported by the Node
Store from `ontosight.utils`, not defined under `src/`) renders a default
display label from a caller-supplied ID; modelled as the ID itself. -/
def default_label_formatter (s : String) : String := s

/-! ## Shared element shapes

A stored node (`{id, data: {label, raw}}`, plus the `highlighted` key that
`get_sample` may inject into a returned copy; `none` models the key being
absent).  The List Store's items have the same shape. -/

structure NodeEntry where
  id : String
  label : String
  raw : Record
  highlighted : Option Bool
deriving Repr, DecidableEq

/-- A stored pairwise edge (`{id, source, target, data: {label, raw}}`). -/
structure EdgeEntry where
  id : String
  source : String
  target : String
  label : String
  raw : Record
  highlighted : Option Bool
deriving Repr, DecidableEq

/-- `highlighted`-field contract on a returned element, abstracted to its
`(id, highlighted)` projection (§4.5 of the spec). -/
def highlightSpec (center_ids : List String) (flag : Bool)
    (els : List (String × Option Bool)) : Prop :=
  ∀ p ∈ els,
    (flag = true → (p.1 ∈ center_ids → p.2 = some true) ∧
                   (p.1 ∉ center_ids → p.2 = none)) ∧
    (flag = false → p.2 = none)

/-! ## Graph Store (`src/ontosight/core/storage/graph.py`) -/

/-- `GraphStorage._compute_stats` result; `avg_degree` is a Python float
`total_degree / total_nodes`, kept here as the exact numerator/denominator
pair. -/
structure GraphStats where
  total_nodes : Nat
  total_edges : Nat
  avg_degree_num : Nat
  avg_degree_den : Nat
deriving Repr, DecidableEq

structure GraphStorage where
  label_to_id : List (String × String)
  nodes : List (String × NodeEntry)
  deg_node : List (String × Nat)
  edges : List (String × EdgeEntry)
  adjacency : List (String × List String)
  incident_edges : List (String × List String)
deriving Repr, DecidableEq

/-- `GraphStorage.__init__`: index nodes (label→id map, degree counters),
then resolve each edge's endpoint labels, dropping (with a warning) edges
whose endpoints are unresolved; self-loops are stored but do not count
toward degree. -/
def gInitNodeStep (node_label_extractor : Record → String)
    (st : GraphStorage) (node : Record) : GraphStorage :=
  let label := node_label_extractor node
  let node_id := get_model_id node
  { st with
    label_to_id := dinsert label node_id st.label_to_id
    nodes := dinsert node_id ⟨node_id, label, node, none⟩ st.nodes
    deg_node := dinsert node_id 0 st.deg_node }

def gInitEdgeStep (edge_label_extractor : Record → String)
    (nodes_in_edge_extractor : Record → String × String)
    (st : GraphStorage) (edge : Record) : GraphStorage :=
  match dlookup (nodes_in_edge_extractor edge).1 st.label_to_id,
        dlookup (nodes_in_edge_extractor edge).2 st.label_to_id with
  | some source_id, some target_id =>
    let edge_label := edge_label_extractor edge
    let edge_id := get_model_id edge
    let deg' := if source_id ≠ target_id then
        dmodify target_id (· + 1) (dmodify source_id (· + 1) st.deg_node)
      else st.deg_node
    { st with
      deg_node := deg'
      edges := dinsert edge_id
        ⟨edge_id, source_id, target_id, edge_label, edge, none⟩ st.edges
      adjacency := dmodify target_id (sinsert source_id)
        (dmodify source_id (sinsert target_id) st.adjacency)
      incident_edges := dmodify target_id (· ++ [edge_id])
        (dmodify source_id (· ++ [edge_id]) st.incident_edges) }
  | _, _ => st  -- unresolved endpoint: warning logged, edge dropped

/-- The store state after the node loop of `GraphStorage.__init__`:
nodes, label map and zeroed degree counters indexed, with empty
adjacency/incidence structures keyed by every node ID. -/
def gInitBase (node_label_extractor : Record → String)
    (node_list : List Record) : GraphStorage :=
  let st1 := node_list.foldl (gInitNodeStep node_label_extractor)
    ⟨[], [], [], [], [], []⟩
  { st1 with
    adjacency := st1.nodes.map (fun p => (p.1, []))
    incident_edges := st1.nodes.map (fun p => (p.1, [])) }

def GraphStorage.init (node_list edge_list : List Record)
    (node_label_extractor : Record → String)
    (edge_label_extractor : Record → String)
    (nodes_in_edge_extractor : Record → String × String) : GraphStorage :=
  edge_list.foldl (gInitEdgeStep edge_label_extractor nodes_in_edge_extractor)
    (gInitBase node_label_extractor node_list)

/-- `GraphStorage._compute_stats`. -/
def GraphStorage.stats (st : GraphStorage) : GraphStats :=
  if st.nodes.isEmpty then ⟨0, 0, 0, 0⟩
  else
    ⟨st.nodes.length, st.edges.length,
     (st.deg_node.map (·.2)).sum, st.nodes.length⟩

/-- The result shape of `GraphStorage.get_sample`. -/
structure GSample where
  nodes : List NodeEntry
  edges : List EdgeEntry
deriving Repr, DecidableEq

/-- The center-scan loop of `GraphStorage.get_sample`: partition the given
IDs into node IDs (added to the visited-node set) and edge IDs (edge added
to the visited-edge set, both endpoints to the visited-node set); center
sets are only tracked when `highlight_center` is true.  Accumulator:
(visited_nodes, visited_edges, center_node_ids, center_edge_ids). -/
def gCenterStep (st : GraphStorage) (highlight_center : Bool)
    (acc : List String × List String × List String × List String)
    (element_id : String) :
    List String × List String × List String × List String :=
  let (vn, ve, cn, ce) := acc
  if (dlookup element_id st.nodes).isSome then
    (sinsert element_id vn, ve,
     if highlight_center then sinsert element_id cn else cn, ce)
  else
    match dlookup element_id st.edges with
    | some e =>
      (sinsert e.target (sinsert e.source vn), sinsert element_id ve, cn,
       if highlight_center then sinsert element_id ce else ce)
    | none => acc

def gCenterScan (st : GraphStorage) (highlight_center : Bool)
    (center_ids : List String) :
    List String × List String × List String × List String :=
  center_ids.foldl (gCenterStep st highlight_center) ([], [], [], [])

/-- The "other" endpoint of an edge relative to `node_id`, exactly as the
BFS computes it. -/
def gOther (e : EdgeEntry) (node_id : String) : String :=
  if e.source = node_id then e.target else e.source

/-- One incident-edge visit inside the BFS round: skip already-visited
edges, otherwise mark the edge visited and add the edge's other endpoint to
the next frontier if not yet visited.  Accumulator:
(visited_nodes, visited_edges, next_layer).  (An edge ID missing from the
edge dict cannot occur in a constructed store; Python would raise
`KeyError` there.) -/
def gStepEdge (st : GraphStorage) (node_id : String)
    (acc : List String × List String × List String) (edge_id : String) :
    List String × List String × List String :=
  let (vn, ve, nl) := acc
  if edge_id ∈ ve then acc
  else
    let ve' := ve ++ [edge_id]
    match dlookup edge_id st.edges with
    | none => (vn, ve', nl)
    | some e =>
      if gOther e node_id ∈ vn then (vn, ve', nl)
      else (vn ++ [gOther e node_id], ve', nl ++ [gOther e node_id])

/-- One BFS round over the current frontier. -/
def gRound (st : GraphStorage) (vn ve cl : List String) :
    List String × List String × List String :=
  cl.foldl (fun acc node_id =>
      ((dlookup node_id st.incident_edges).getD []).foldl
        (gStepEdge st node_id) acc)
    (vn, ve, [])

/-- `hops` BFS rounds; stops after exactly `hops` rounds even if the
frontier is non-empty. -/
def gBfs (st : GraphStorage) : Nat → List String → List String →
    List String → List String × List String
  | 0, vn, ve, _ => (vn, ve)
  | hops + 1, vn, ve, cl =>
    let (vn', ve', nl) := gRound st vn ve cl
    gBfs st hops vn' ve' nl

/-- Result collection: shallow-copy each visited node, injecting
`highlighted: true` into the copy of center nodes. -/
def gCollectNodes (st : GraphStorage) (highlight_center : Bool)
    (cn vn : List String) : List NodeEntry :=
  vn.filterMap (fun node_id =>
    (dlookup node_id st.nodes).map (fun e =>
      if highlight_center ∧ node_id ∈ cn then { e with highlighted := some true }
      else e))

def gCollectEdges (st : GraphStorage) (highlight_center : Bool)
    (ce ve : List String) : List EdgeEntry :=
  ve.filterMap (fun edge_id =>
    (dlookup edge_id st.edges).map (fun e =>
      if highlight_center ∧ edge_id ∈ ce then { e with highlighted := some true }
      else e))

/-- `GraphStorage.get_sample`: bounded-radius BFS around the given center
IDs (or a random non-isolated node if none are given; the RNG draw is the
explicit `seed`). -/
def GraphStorage.get_sample (st : GraphStorage) (center_ids : List String)
    (hops : Nat) (highlight_center : Bool) (seed : Nat) : GSample :=
  let center_ids := if center_ids.isEmpty then
      let pool := (st.nodes.map (·.1)).filter
        (fun nid => 0 < (dlookup nid st.deg_node).getD 0)
      if pool.isEmpty then [] else [pool.getD (seed % pool.length) ""]
    else center_ids
  if center_ids.isEmpty then ⟨[], []⟩
  else
    let (vn, ve, cn, ce) := gCenterScan st highlight_center center_ids
    if vn.isEmpty then ⟨[], []⟩
    else
      let (vn', ve') := gBfs st hops vn ve vn
      ⟨gCollectNodes st highlight_center cn vn',
       gCollectEdges st highlight_center ce ve'⟩

/-- A row of a paginated listing: the stored element plus the root-level
`label` and `type` keys added for the list view. -/
structure PageItem (α : Type) where
  base : α
  label : String
  typ : String
deriving Repr, DecidableEq

/-- The result shape of the `get_all_*_paginated` methods. -/
structure PageResult (α : Type) where
  items : List α
  page : Nat
  page_size : Nat
  total : Nat
  has_next : Bool
deriving Repr, DecidableEq

/-- The Python slice `l[page*page_size : page*page_size+page_size]`. -/
def pageSlice (l : List α) (page page_size : Nat) : List α :=
  (l.drop (page * page_size)).take page_size

/-- `GraphStorage.get_all_nodes_paginated`. -/
def GraphStorage.get_all_nodes_paginated (st : GraphStorage)
    (page page_size : Nat) : PageResult (PageItem NodeEntry) :=
  let node_items := st.nodes.map (·.2)
  ⟨(pageSlice node_items page page_size).map (fun n => ⟨n, n.label, "node"⟩),
   page, page_size, node_items.length,
   decide (page * page_size + page_size < node_items.length)⟩

/-- `GraphStorage.get_all_edges_paginated`. -/
def GraphStorage.get_all_edges_paginated (st : GraphStorage)
    (page page_size : Nat) : PageResult (PageItem EdgeEntry) :=
  let edge_items := st.edges.map (·.2)
  ⟨(pageSlice edge_items page page_size).map (fun e => ⟨e, e.label, "edge"⟩),
   page, page_size, edge_items.length,
   decide (page * page_size + page_size < edge_items.length)⟩

/-- `GraphStorage.get_sample_from_data`: re-derive each raw record's ID,
skip (with a warning) those not present in the store, and delegate the
resolvable ones to `get_sample`. -/
def GraphStorage.get_sample_from_data (st : GraphStorage)
    (node_list edge_list : List Record) (hops : Nat)
    (highlight_center : Bool) (seed : Nat) : GSample :=
  let node_ids := node_list.filterMap (fun node =>
    let node_id := get_model_id node
    if (dlookup node_id st.nodes).isSome then some node_id else none)
  let edge_ids := edge_list.filterMap (fun edge =>
    let edge_id := get_model_id edge
    if (dlookup edge_id st.edges).isSome then some edge_id else none)
  let all_ids := node_ids ++ edge_ids
  if all_ids.isEmpty then ⟨[], []⟩
  else st.get_sample all_ids hops highlight_center seed

/-! ## Graph Store: hop distance and construction invariants -/

/-- All nodes one incident-edge hop from `u`. -/
def gNbrs (st : GraphStorage) (u : String) : List String :=
  ((dlookup u st.incident_edges).getD []).filterMap (fun eid =>
    (dlookup eid st.edges).map (fun e => gOther e u))

/-- All nodes within `k` incident-edge hops of the node set `S`. -/
def gBall (st : GraphStorage) (S : List String) : Nat → List String
  | 0 => S
  | k + 1 => gBall st S k ++ (gBall st S k).flatMap (gNbrs st)

/-- The center-derived node set of a list of center IDs: the supplied IDs
that are node IDs, plus both endpoints of each supplied ID that is an edge
ID. -/
def gCenterNodes (st : GraphStorage) : List String → List String
  | [] => []
  | i :: ids =>
    (if (dlookup i st.nodes).isSome then [i]
     else match dlookup i st.edges with
       | some e => [e.source, e.target]
       | none => []) ++ gCenterNodes st ids

theorem gBall_succ_sub (st : GraphStorage) (S : List String) (k : Nat) :
    gBall st S k ⊆ gBall st S (k + 1) := by
  intro x hx
  simp [gBall, hx]

theorem gBall_nbrs_sub (st : GraphStorage) (S : List String) (k : Nat)
    (u x : String) (hu : u ∈ gBall st S k) (hx : x ∈ gNbrs st u) :
    x ∈ gBall st S (k + 1) := by
  simp only [gBall, List.mem_append, List.mem_flatMap]
  exact Or.inr ⟨u, hu, hx⟩

theorem dlookup_mem {d : List (String × α)} {k : String} {v : α}
    (h : dlookup k d = some v) : (k, v) ∈ d := by
  induction d with
  | nil => simp [dlookup] at h
  | cons p rest ih =>
    by_cases h1 : p.1 = k
    · simp only [dlookup, if_pos h1] at h
      cases h
      subst h1
      simp
    · simp only [dlookup, if_neg h1] at h
      exact List.mem_cons_of_mem _ (ih h)

theorem dinsert_mem {d : List (String × α)} {k : String} {v : α} {p : String × α}
    (h : p ∈ dinsert k v d) : p = (k, v) ∨ p ∈ d := by
  induction d with
  | nil => simpa [dinsert] using h
  | cons q rest ih =>
    by_cases h1 : q.1 = k
    · simp only [dinsert, if_pos h1, List.mem_cons] at h
      rcases h with h | h
      · exact Or.inl h
      · exact Or.inr (List.mem_cons_of_mem _ h)
    · simp only [dinsert, if_neg h1, List.mem_cons] at h
      rcases h with h | h
      · exact Or.inr (by simp [h])
      · rcases ih h with h' | h'
        · exact Or.inl h'
        · exact Or.inr (List.mem_cons_of_mem _ h')

theorem dmodify_mem {d : List (String × α)} {k : String} {f : α → α}
    {p : String × α} (h : p ∈ dmodify k f d) :
    p ∈ d ∨ ∃ v, (p.1, v) ∈ d ∧ p = (k, f v) := by
  induction d with
  | nil => simp [dmodify] at h
  | cons q rest ih =>
    by_cases h1 : q.1 = k
    · simp only [dmodify, if_pos h1, List.mem_cons] at h
      rcases h with h | h
      · refine Or.inr ⟨q.2, ?_, h⟩
        subst h1
        simp [h]
      · exact Or.inl (List.mem_cons_of_mem _ h)
    · simp only [dmodify, if_pos, if_neg h1, List.mem_cons] at h
      rcases h with h | h
      · exact Or.inl (by simp [h])
      · rcases ih h with h' | ⟨v, hv, hp⟩
        · exact Or.inl (List.mem_cons_of_mem _ h')
        · exact Or.inr ⟨v, List.mem_cons_of_mem _ hv, hp⟩

/-- Construction invariant of the Graph Store.  `initEdgeList` records
which raw edge records the stored edges can come from. -/
structure GraphWF (st : GraphStorage) : Prop where
  nodes_id : ∀ p ∈ st.nodes, p.2.id = p.1 ∧ p.2.highlighted = none
  label_values : ∀ lab nid, dlookup lab st.label_to_id = some nid →
    (dlookup nid st.nodes).isSome
  edges_wf : ∀ p ∈ st.edges, p.2.id = p.1 ∧ p.2.highlighted = none ∧
    (dlookup p.2.source st.nodes).isSome ∧ (dlookup p.2.target st.nodes).isSome

theorem gInitNode_inv (node_label_extractor : Record → String)
    (node_list : List Record) :
    let st1 := node_list.foldl (gInitNodeStep node_label_extractor)
      (⟨[], [], [], [], [], []⟩ : GraphStorage)
    (∀ p ∈ st1.nodes, p.2.id = p.1 ∧ p.2.highlighted = none) ∧
    (∀ lab nid, dlookup lab st1.label_to_id = some nid →
      (dlookup nid st1.nodes).isSome) ∧
    st1.edges = [] := by
  intro st1
  refine foldl_invariant (fun (st : GraphStorage) =>
    (∀ p ∈ st.nodes, p.2.id = p.1 ∧ p.2.highlighted = none) ∧
    (∀ lab nid, dlookup lab st.label_to_id = some nid →
      (dlookup nid st.nodes).isSome) ∧
    st.edges = []) _ node_list _ ?_ ?_
  · exact ⟨by simp, by intro lab nid h; simp [dlookup] at h, rfl⟩
  · rintro st node _ ⟨ha, hb, hc⟩
    refine ⟨?_, ?_, hc⟩
    · intro p hp
      rcases dinsert_mem hp with h | h
      · subst h; exact ⟨rfl, rfl⟩
      · exact ha p h
    · intro lab nid h
      simp only [gInitNodeStep] at h ⊢
      rw [dinsert_dlookup] at h
      rw [dinsert_dlookup]
      by_cases h1 : lab = node_label_extractor node
      · rw [if_pos h1] at h
        cases h
        simp
      · rw [if_neg h1] at h
        by_cases h2 : nid = get_model_id node
        · simp [h2]
        · simp only [if_neg h2]
          exact hb lab nid h

theorem ginit_wf (node_list edge_list : List Record)
    (nle ele : Record → String) (nee : Record → String × String) :
    GraphWF (GraphStorage.init node_list edge_list nle ele nee) := by
  unfold GraphStorage.init
  obtain ⟨ha, hb, hc⟩ := gInitNode_inv nle node_list
  have main : ∀ (st : GraphStorage),
      (∀ p ∈ st.nodes, p.2.id = p.1 ∧ p.2.highlighted = none) →
      (∀ lab nid, dlookup lab st.label_to_id = some nid →
        (dlookup nid st.nodes).isSome) →
      (∀ p ∈ st.edges, p.2.id = p.1 ∧ p.2.highlighted = none ∧
        (dlookup p.2.source st.nodes).isSome ∧
        (dlookup p.2.target st.nodes).isSome) →
      GraphWF (edge_list.foldl (gInitEdgeStep ele nee) st) := by
    intro st h1 h2 h3
    have inv := foldl_invariant (fun (st' : GraphStorage) =>
      (∀ p ∈ st'.nodes, p.2.id = p.1 ∧ p.2.highlighted = none) ∧
      (∀ lab nid, dlookup lab st'.label_to_id = some nid →
        (dlookup nid st'.nodes).isSome) ∧
      (∀ p ∈ st'.edges, p.2.id = p.1 ∧ p.2.highlighted = none ∧
        (dlookup p.2.source st'.nodes).isSome ∧
        (dlookup p.2.target st'.nodes).isSome))
      (gInitEdgeStep ele nee) edge_list st ⟨h1, h2, h3⟩ ?_
    · exact ⟨inv.1, inv.2.1, inv.2.2⟩
    · rintro acc edge _ ⟨ka, kb, kc⟩
      unfold gInitEdgeStep
      cases hs : dlookup (nee edge).1 acc.label_to_id with
      | none => exact ⟨ka, kb, kc⟩
      | some source_id =>
        cases ht : dlookup (nee edge).2 acc.label_to_id with
        | none => exact ⟨ka, kb, kc⟩
        | some target_id =>
          refine ⟨ka, kb, ?_⟩
          intro p hp
          rcases dinsert_mem hp with h | h
          · subst h
            exact ⟨rfl, rfl, kb _ _ hs, kb _ _ ht⟩
          · exact kc p h
  exact main (gInitBase nle node_list) (by simpa using ha) (by simpa using hb)
    (by intro p hp
        have hp' : p ∈ (node_list.foldl (gInitNodeStep nle)
            (⟨[], [], [], [], [], []⟩ : GraphStorage)).edges := hp
        rw [hc] at hp'
        simp at hp')

/-! ## Graph Store: BFS boundedness lemmas -/

theorem gNbrs_of_step {st : GraphStorage} {u eid : String} {e : EdgeEntry}
    (he : eid ∈ (dlookup u st.incident_edges).getD [])
    (hl : dlookup eid st.edges = some e) : gOther e u ∈ gNbrs st u := by
  unfold gNbrs
  exact List.mem_filterMap.mpr ⟨eid, he, by rw [hl]; rfl⟩

theorem gStepEdge_sub (st : GraphStorage) (u : String)
    (acc : List String × List String × List String) (eid : String)
    (he : eid ∈ (dlookup u st.incident_edges).getD []) :
    (∀ x ∈ (gStepEdge st u acc eid).1, x ∈ acc.1 ∨ x ∈ gNbrs st u) ∧
    (∀ x ∈ (gStepEdge st u acc eid).2.2, x ∈ acc.2.2 ∨ x ∈ gNbrs st u) := by
  obtain ⟨vn, ve, nl⟩ := acc
  by_cases h1 : eid ∈ ve
  · have hred : gStepEdge st u (vn, ve, nl) eid = (vn, ve, nl) := by
      simp [gStepEdge, h1]
    rw [hred]
    exact ⟨fun x hx => Or.inl hx, fun x hx => Or.inl hx⟩
  · cases h2 : dlookup eid st.edges with
    | none =>
      have hred : gStepEdge st u (vn, ve, nl) eid = (vn, ve ++ [eid], nl) := by
        simp [gStepEdge, h1, h2]
      rw [hred]
      exact ⟨fun x hx => Or.inl hx, fun x hx => Or.inl hx⟩
    | some e =>
      have hmem := gNbrs_of_step he h2
      by_cases h3 : gOther e u ∈ vn
      · have hred : gStepEdge st u (vn, ve, nl) eid = (vn, ve ++ [eid], nl) := by
          simp [gStepEdge, h1, h2, h3]
        rw [hred]
        exact ⟨fun x hx => Or.inl hx, fun x hx => Or.inl hx⟩
      · have hred : gStepEdge st u (vn, ve, nl) eid =
            (vn ++ [gOther e u], ve ++ [eid], nl ++ [gOther e u]) := by
          simp [gStepEdge, h1, h2, h3]
        rw [hred]
        constructor
        · intro x hx
          rcases List.mem_append.mp hx with hx | hx
          · exact Or.inl hx
          · rw [List.mem_singleton] at hx
            subst hx
            exact Or.inr hmem
        · intro x hx
          rcases List.mem_append.mp hx with hx | hx
          · exact Or.inl hx
          · rw [List.mem_singleton] at hx
            subst hx
            exact Or.inr hmem

theorem gRound_sub (st : GraphStorage) (vn ve cl : List String) :
    (∀ x ∈ (gRound st vn ve cl).1, x ∈ vn ∨ ∃ u ∈ cl, x ∈ gNbrs st u) ∧
    (∀ x ∈ (gRound st vn ve cl).2.2, ∃ u ∈ cl, x ∈ gNbrs st u) := by
  unfold gRound
  refine foldl_invariant (fun (acc : List String × List String × List String) =>
    (∀ x ∈ acc.1, x ∈ vn ∨ ∃ u ∈ cl, x ∈ gNbrs st u) ∧
    (∀ x ∈ acc.2.2, ∃ u ∈ cl, x ∈ gNbrs st u)) _ cl _ ?_ ?_
  · exact ⟨fun x hx => Or.inl hx, by simp⟩
  · rintro acc u hu ⟨ha, hb⟩
    refine foldl_invariant (fun (acc2 : List String × List String × List String) =>
      (∀ x ∈ acc2.1, x ∈ vn ∨ ∃ u' ∈ cl, x ∈ gNbrs st u') ∧
      (∀ x ∈ acc2.2.2, ∃ u' ∈ cl, x ∈ gNbrs st u'))
      (gStepEdge st u) _ acc ⟨ha, hb⟩ ?_
    rintro acc2 eid heid ⟨ka, kb⟩
    obtain ⟨h1, h2⟩ := gStepEdge_sub st u acc2 eid heid
    refine ⟨fun x hx => ?_, fun x hx => ?_⟩
    · rcases h1 x hx with h | h
      · exact ka x h
      · exact Or.inr ⟨u, hu, h⟩
    · rcases h2 x hx with h | h
      · exact kb x h
      · exact ⟨u, hu, h⟩

theorem gBfs_bounded (st : GraphStorage) (S : List String) :
    ∀ (hops k : Nat) (vn ve cl : List String),
      (∀ x ∈ vn, x ∈ gBall st S k) → (∀ x ∈ cl, x ∈ gBall st S k) →
      ∀ x ∈ (gBfs st hops vn ve cl).1, x ∈ gBall st S (k + hops) := by
  intro hops
  induction hops with
  | zero =>
    intro k vn ve cl hv _ x hx
    simpa [gBfs] using hv x hx
  | succ n ih =>
    intro k vn ve cl hv hc x hx
    rcases hR : gRound st vn ve cl with ⟨vn', ve', nl⟩
    rw [show gBfs st (n + 1) vn ve cl = gBfs st n vn' ve' nl by rw [gBfs, hR]] at hx
    obtain ⟨r1, r2⟩ := gRound_sub st vn ve cl
    rw [hR] at r1 r2
    have hv' : ∀ y ∈ vn', y ∈ gBall st S (k + 1) := by
      intro y hy
      rcases r1 y hy with h | ⟨u, hu, hn⟩
      · exact gBall_succ_sub st S k (hv y h)
      · exact gBall_nbrs_sub st S k u y (hc u hu) hn
    have hc' : ∀ y ∈ nl, y ∈ gBall st S (k + 1) := by
      intro y hy
      rcases r2 y hy with ⟨u, hu, hn⟩
      exact gBall_nbrs_sub st S k u y (hc u hu) hn
    have := ih (k + 1) vn' ve' nl hv' hc' x hx
    have harith : k + 1 + n = k + (n + 1) := by omega
    rwa [harith] at this

/-! ## Graph Store: center-scan and result-collection lemmas -/

theorem gCenterScan_go (st : GraphStorage) (flag : Bool) :
    ∀ (ids : List String) (vn ve cn ce : List String),
      (∀ x, x ∈ (ids.foldl (gCenterStep st flag) (vn, ve, cn, ce)).1 ↔
        x ∈ vn ∨ x ∈ gCenterNodes st ids) ∧
      (∀ x, x ∈ (ids.foldl (gCenterStep st flag) (vn, ve, cn, ce)).2.2.1 ↔
        x ∈ cn ∨ (flag = true ∧ x ∈ ids ∧ (dlookup x st.nodes).isSome)) ∧
      (∀ x, x ∈ (ids.foldl (gCenterStep st flag) (vn, ve, cn, ce)).2.2.2 ↔
        x ∈ ce ∨ (flag = true ∧ x ∈ ids ∧ dlookup x st.nodes = none ∧
          (dlookup x st.edges).isSome)) := by
  intro ids
  induction ids with
  | nil => intro vn ve cn ce; simp [gCenterNodes]
  | cons i rest ih =>
    intro vn ve cn ce
    by_cases hn : (dlookup i st.nodes).isSome
    · have hgcn : gCenterNodes st (i :: rest) = i :: gCenterNodes st rest := by
        simp [gCenterNodes, hn]
      have hred : gCenterStep st flag (vn, ve, cn, ce) i =
          (sinsert i vn, ve, if flag then sinsert i cn else cn, ce) := by
        simp [gCenterStep, hn]
      rw [List.foldl_cons, hred]
      obtain ⟨ihv, ihc, ihe⟩ := ih (sinsert i vn) ve (if flag then sinsert i cn else cn) ce
      refine ⟨fun x => ?_, fun x => ?_, fun x => ?_⟩
      · rw [ihv, sinsert_mem, hgcn]
        simp only [List.mem_cons]
        tauto
      · rw [ihc]
        have hbs : x = i → (dlookup x st.nodes).isSome = true := fun h => by
          rw [h]; exact hn
        cases flag with
        | false => simp
        | true =>
          rw [if_pos rfl, sinsert_mem]
          simp only [List.mem_cons]
          tauto
      · rw [ihe]
        have hbn : ¬(x = i ∧ dlookup x st.nodes = none) := by
          rintro ⟨rfl, hN⟩
          rw [hN] at hn
          simp at hn
        simp only [List.mem_cons]
        tauto
    · have hn' : dlookup i st.nodes = none := by
        cases h : dlookup i st.nodes with
        | none => rfl
        | some v => rw [h] at hn; simp at hn
      cases he : dlookup i st.edges with
      | some e =>
        have hgcn : gCenterNodes st (i :: rest) =
            e.source :: e.target :: gCenterNodes st rest := by
          simp [gCenterNodes, hn', he]
        have hred : gCenterStep st flag (vn, ve, cn, ce) i =
            (sinsert e.target (sinsert e.source vn), sinsert i ve, cn,
             if flag then sinsert i ce else ce) := by
          simp [gCenterStep, hn', he]
        rw [List.foldl_cons, hred]
        obtain ⟨ihv, ihc, ihe⟩ := ih (sinsert e.target (sinsert e.source vn))
          (sinsert i ve) cn (if flag then sinsert i ce else ce)
        refine ⟨fun x => ?_, fun x => ?_, fun x => ?_⟩
        · rw [ihv, sinsert_mem, sinsert_mem, hgcn]
          simp only [List.mem_cons]
          tauto
        · rw [ihc]
          have hbs : ¬(x = i ∧ (dlookup x st.nodes).isSome = true) := by
            rintro ⟨rfl, hs⟩
            rw [hn'] at hs
            simp at hs
          simp only [List.mem_cons]
          tauto
        · rw [ihe]
          have hbne : x = i →
              dlookup x st.nodes = none ∧ (dlookup x st.edges).isSome = true :=
            fun h => by rw [h, hn', he]; exact ⟨rfl, rfl⟩
          cases flag with
          | false => simp
          | true =>
            rw [if_pos rfl, sinsert_mem]
            simp only [List.mem_cons]
            tauto
      | none =>
        have hgcn : gCenterNodes st (i :: rest) = gCenterNodes st rest := by
          simp [gCenterNodes, hn', he]
        have hred : gCenterStep st flag (vn, ve, cn, ce) i = (vn, ve, cn, ce) := by
          simp [gCenterStep, hn', he]
        rw [List.foldl_cons, hred]
        obtain ⟨ihv, ihc, ihe⟩ := ih vn ve cn ce
        refine ⟨fun x => ?_, fun x => ?_, fun x => ?_⟩
        · rw [ihv, hgcn]
        · rw [ihc]
          have hbs : ¬(x = i ∧ (dlookup x st.nodes).isSome = true) := by
            rintro ⟨rfl, hs⟩
            rw [hn'] at hs
            simp at hs
          simp only [List.mem_cons]
          tauto
        · rw [ihe]
          have hbe : ¬(x = i ∧ (dlookup x st.edges).isSome = true) := by
            rintro ⟨rfl, hs⟩
            rw [he] at hs
            simp at hs
          simp only [List.mem_cons]
          tauto

theorem gCenterNodes_isSome (st : GraphStorage) (hwf : GraphWF st) :
    ∀ (ids : List String) (x : String), x ∈ gCenterNodes st ids →
      (dlookup x st.nodes).isSome := by
  intro ids
  induction ids with
  | nil => intro x hx; simp [gCenterNodes] at hx
  | cons i rest ih =>
    intro x hx
    by_cases hn : (dlookup i st.nodes).isSome
    · rw [show gCenterNodes st (i :: rest) = i :: gCenterNodes st rest by
        simp [gCenterNodes, hn]] at hx
      rcases List.mem_cons.mp hx with rfl | hx
      · exact hn
      · exact ih x hx
    · have hn' : dlookup i st.nodes = none := by
        cases h : dlookup i st.nodes with
        | none => rfl
        | some v => rw [h] at hn; simp at hn
      cases he : dlookup i st.edges with
      | some e =>
        rw [show gCenterNodes st (i :: rest) =
            e.source :: e.target :: gCenterNodes st rest by
          simp [gCenterNodes, hn', he]] at hx
        obtain ⟨_, _, hs, ht⟩ := hwf.edges_wf (i, e) (dlookup_mem he)
        rcases List.mem_cons.mp hx with rfl | hx
        · exact hs
        · rcases List.mem_cons.mp hx with rfl | hx
          · exact ht
          · exact ih x hx
      | none =>
        rw [show gCenterNodes st (i :: rest) = gCenterNodes st rest by
          simp [gCenterNodes, hn', he]] at hx
        exact ih x hx

theorem gCollectNodes_spec (st : GraphStorage) (flag : Bool) (cn vn : List String)
    (hwf : ∀ p ∈ st.nodes, p.2.id = p.1 ∧ p.2.highlighted = none) :
    ∀ n ∈ gCollectNodes st flag cn vn,
      n.id ∈ vn ∧ (dlookup n.id st.nodes).isSome ∧
      n.highlighted = (if flag = true ∧ n.id ∈ cn then some true else none) := by
  intro n hn
  rcases List.mem_filterMap.mp hn with ⟨nid, hvn, hf⟩
  cases hl : dlookup nid st.nodes with
  | none => rw [hl] at hf; simp at hf
  | some e =>
    rw [hl] at hf
    simp only [Option.map_some', Option.some.injEq] at hf
    have hid : e.id = nid := (hwf (nid, e) (dlookup_mem hl)).1
    have hhl : e.highlighted = none := (hwf (nid, e) (dlookup_mem hl)).2
    by_cases hc : flag = true ∧ nid ∈ cn
    · rw [if_pos hc] at hf
      subst hf
      refine ⟨by simpa [hid] using hvn, by simp [hid, hl], ?_⟩
      show some true = _
      simp only [hid]
      rw [if_pos hc]
    · rw [if_neg hc] at hf
      subst hf
      refine ⟨by simpa [hid] using hvn, by simp [hid, hl], ?_⟩
      rw [hhl, hid, if_neg hc]

theorem gCollectNodes_ids (st : GraphStorage) (flag : Bool) (cn : List String)
    (hwf : ∀ p ∈ st.nodes, p.2.id = p.1 ∧ p.2.highlighted = none) :
    ∀ (vn : List String), (∀ x ∈ vn, (dlookup x st.nodes).isSome) →
      (gCollectNodes st flag cn vn).map NodeEntry.id = vn := by
  intro vn
  induction vn with
  | nil => intro _; simp [gCollectNodes]
  | cons x xs ih =>
    intro hall
    cases hl : dlookup x st.nodes with
    | none =>
      have := hall x (by simp)
      rw [hl] at this
      simp at this
    | some e =>
      have hid := (hwf (x, e) (dlookup_mem hl)).1
      have hrest := ih (fun y hy => hall y (List.mem_cons_of_mem _ hy))
      unfold gCollectNodes at hrest ⊢
      rw [List.filterMap_cons, hl]
      simp only [Option.map_some', List.map_cons, hrest]
      congr 1
      by_cases hc : flag = true ∧ x ∈ cn
      · rw [if_pos hc]; exact hid
      · rw [if_neg hc]; exact hid

theorem gCollectEdges_spec (st : GraphStorage) (flag : Bool) (ce ve : List String)
    (hwf : ∀ p ∈ st.edges, p.2.id = p.1 ∧ p.2.highlighted = none ∧
      (dlookup p.2.source st.nodes).isSome ∧ (dlookup p.2.target st.nodes).isSome) :
    ∀ e ∈ gCollectEdges st flag ce ve,
      (dlookup e.id st.edges).isSome ∧
      e.highlighted = (if flag = true ∧ e.id ∈ ce then some true else none) := by
  intro n hn
  rcases List.mem_filterMap.mp hn with ⟨eid, _, hf⟩
  cases hl : dlookup eid st.edges with
  | none => rw [hl] at hf; simp at hf
  | some e =>
    rw [hl] at hf
    simp only [Option.map_some', Option.some.injEq] at hf
    have hid : e.id = eid := (hwf (eid, e) (dlookup_mem hl)).1
    have hhl : e.highlighted = none := (hwf (eid, e) (dlookup_mem hl)).2.1
    by_cases hc : flag = true ∧ eid ∈ ce
    · rw [if_pos hc] at hf
      subst hf
      refine ⟨by simp [hid, hl], ?_⟩
      show some true = _
      simp only [hid]
      rw [if_pos hc]
    · rw [if_neg hc] at hf
      subst hf
      refine ⟨by simp [hid, hl], ?_⟩
      rw [hhl, hid, if_neg hc]

/-- Reduction of `get_sample` when centers are supplied (the random default
branch is not taken). -/
theorem get_sample_eq (st : GraphStorage) (ids : List String) (hops : Nat)
    (flag : Bool) (seed : Nat) (hids : ids ≠ []) :
    st.get_sample ids hops flag seed =
      if (gCenterScan st flag ids).1.isEmpty then ⟨[], []⟩
      else
        ⟨gCollectNodes st flag (gCenterScan st flag ids).2.2.1
          (gBfs st hops (gCenterScan st flag ids).1 (gCenterScan st flag ids).2.1
            (gCenterScan st flag ids).1).1,
         gCollectEdges st flag (gCenterScan st flag ids).2.2.2
          (gBfs st hops (gCenterScan st flag ids).1 (gCenterScan st flag ids).2.1
            (gCenterScan st flag ids).1).2⟩ := by
  have h0 : ids.isEmpty = false := by
    cases ids with
    | nil => exact absurd rfl hids
    | cons a l => rfl
  rcases hscan : gCenterScan st flag ids with ⟨vn, ve, cn, ce⟩
  rcases hbfs : gBfs st hops vn ve vn with ⟨vn', ve'⟩
  simp [GraphStorage.get_sample, h0, hscan, hbfs]

/-- **C1**: For the Graph Store, `get_sample(center_ids, hops = k,
highlight_center)` with `k ≥ 0` runs a breadth-first expansion for exactly
`k` rounds from the center-derived node set and then stops: no returned
node is farther than `k` incident-edge hops from every center id (every
returned node lies in the `k`-hop ball around the center-derived node
set), and `hops = 0` returns exactly the center-derived node set (the
supplied node IDs plus both endpoints of each supplied edge ID) with no
expansion. -/
theorem C1_graph_bfs_bounded (node_list edge_list : List Record)
    (nle ele : Record → String) (nee : Record → String × String)
    (st : GraphStorage)
    (hst : st = GraphStorage.init node_list edge_list nle ele nee)
    (ids : List String) (hops : Nat) (flag : Bool) (seed : Nat)
    (hids : ids ≠ []) :
    (∀ n ∈ (st.get_sample ids hops flag seed).nodes,
      n.id ∈ gBall st (gCenterNodes st ids) hops) ∧
    (∀ x, x ∈ (st.get_sample ids 0 flag seed).nodes.map NodeEntry.id ↔
      x ∈ gCenterNodes st ids) := by
  have hwf : GraphWF st := hst ▸ ginit_wf node_list edge_list nle ele nee
  rcases hscan : gCenterScan st flag ids with ⟨vn, ve, cn, ce⟩
  obtain ⟨hvn_iff, _, _⟩ := gCenterScan_go st flag ids [] [] [] []
  rw [show ids.foldl (gCenterStep st flag) ([], [], [], []) = (vn, ve, cn, ce) from hscan] at hvn_iff
  simp only [List.not_mem_nil, false_or] at hvn_iff
  have hvn_sub : ∀ x ∈ vn, x ∈ gCenterNodes st ids := fun x hx => (hvn_iff x).mp hx
  constructor
  · -- boundedness for arbitrary hops
    rw [get_sample_eq st ids hops flag seed hids, hscan]
    by_cases hempty : vn.isEmpty
    · simp [hempty]
    · rw [if_neg (by simpa using hempty)]
      intro n hn
      obtain ⟨hid_mem, _, _⟩ :=
        gCollectNodes_spec st flag cn (gBfs st hops vn ve vn).1 hwf.nodes_id n hn
      have := gBfs_bounded st (gCenterNodes st ids) hops 0 vn ve vn
        (fun x hx => hvn_sub x hx) (fun x hx => hvn_sub x hx) n.id hid_mem
      simpa using this
  · -- hops = 0 returns exactly the center-derived node set
    rw [get_sample_eq st ids 0 flag seed hids, hscan]
    by_cases hempty : vn.isEmpty
    · have hvn_nil : vn = [] := by simpa [List.isEmpty_iff] using hempty
      intro x
      simp only [hempty, if_pos]
      constructor
      · intro hx; simp at hx
      · intro hx
        have := (hvn_iff x).mpr hx
        rw [hvn_nil] at this
        simp at this
    · rw [if_neg (by simpa using hempty)]
      have hbfs0 : gBfs st 0 vn ve vn = (vn, ve) := rfl
      rw [hbfs0]
      have hall : ∀ x ∈ vn, (dlookup x st.nodes).isSome := fun x hx =>
        gCenterNodes_isSome st hwf ids x (hvn_sub x hx)
      rw [gCollectNodes_ids st flag cn hwf.nodes_id vn hall]
      exact hvn_iff

/-! ## Concrete fixtures (spec §8 example scenarios) -/

def recA : Record := [("name", "A")]

def recB : Record := [("name", "B")]

def recC : Record := [("name", "C")]

def recD : Record := [("name", "D")]

def recAB : Record := [("src", "A"), ("dst", "B")]

def recBC : Record := [("src", "B"), ("dst", "C")]

def recCD : Record := [("src", "C"), ("dst", "D")]

/-- Self-loop edge record `A-A`. -/
def recAA : Record := [("src", "A"), ("dst", "A")]

def nameOf (r : Record) : String := (dlookup "name" r).getD ""

def edgeLabelOf (r : Record) : String :=
  (dlookup "src" r).getD "" ++ "-" ++ (dlookup "dst" r).getD ""

def endpointsOf (r : Record) : String × String :=
  ((dlookup "src" r).getD "", (dlookup "dst" r).getD "")

/-- Spec §8 scenario 1: the path graph `A-B, B-C, C-D`. -/
def pathStore : GraphStorage :=
  GraphStorage.init [recA, recB, recC, recD] [recAB, recBC, recCD]
    nameOf edgeLabelOf endpointsOf

/-- Spec §8 scenario 6: a graph with the self-loop edge `A-A`. -/
def loopStore : GraphStorage :=
  GraphStorage.init [recA, recB] [recAA] nameOf edgeLabelOf endpointsOf

/-- Witness for `C1_graph_bfs_bounded` at the path graph around center
`A`. -/
theorem C1_witness :
    ([get_model_id recA] ≠ ([] : List String)) ∧
    ((∀ n ∈ (pathStore.get_sample [get_model_id recA] 1 false 0).nodes,
        n.id ∈ gBall pathStore (gCenterNodes pathStore [get_model_id recA]) 1) ∧
     (∀ x, x ∈ (pathStore.get_sample [get_model_id recA] 0 false 0).nodes.map
          NodeEntry.id ↔ x ∈ gCenterNodes pathStore [get_model_id recA])) :=
  ⟨by decide,
   C1_graph_bfs_bounded [recA, recB, recC, recD] [recAB, recBC, recCD]
     nameOf edgeLabelOf endpointsOf pathStore rfl
     [get_model_id recA] 1 false 0 (by decide)⟩

/-! ## C7: edge endpoint invariant -/

theorem ginit_edges_origin (node_list edge_list : List Record)
    (nle ele : Record → String) (nee : Record → String × String) :
    ∀ p ∈ (GraphStorage.init node_list edge_list nle ele nee).edges,
      ∃ rec ∈ edge_list, get_model_id rec = p.1 ∧
        (dlookup (nee rec).1
          (GraphStorage.init node_list edge_list nle ele nee).label_to_id).isSome ∧
        (dlookup (nee rec).2
          (GraphStorage.init node_list edge_list nle ele nee).label_to_id).isSome := by
  obtain ⟨-, -, hedges⟩ := gInitNode_inv nle node_list
  unfold GraphStorage.init
  refine foldl_invariant (fun (st' : GraphStorage) =>
    (st'.label_to_id = (gInitBase nle node_list).label_to_id) ∧
    (∀ p ∈ st'.edges, ∃ rec ∈ edge_list, get_model_id rec = p.1 ∧
      (dlookup (nee rec).1 st'.label_to_id).isSome ∧
      (dlookup (nee rec).2 st'.label_to_id).isSome))
    (gInitEdgeStep ele nee) edge_list _ ⟨rfl, ?_⟩ ?_ |>.2
  · intro p hp
    have hp' : p ∈ (node_list.foldl (gInitNodeStep nle)
        (⟨[], [], [], [], [], []⟩ : GraphStorage)).edges := hp
    rw [hedges] at hp'
    simp at hp' 
  · rintro acc edge hedge ⟨hlab, hloc⟩
    unfold gInitEdgeStep
    cases hs : dlookup (nee edge).1 acc.label_to_id with
    | none => exact ⟨hlab, hloc⟩
    | some source_id =>
      cases ht : dlookup (nee edge).2 acc.label_to_id with
      | none => exact ⟨hlab, hloc⟩
      | some target_id =>
        refine ⟨hlab, ?_⟩
        intro p hp
        rcases dinsert_mem hp with h | h
        · subst h
          refine ⟨edge, hedge, rfl, ?_, ?_⟩
          · show (dlookup (nee edge).1 acc.label_to_id).isSome = true
            rw [hs]; rfl
          · show (dlookup (nee edge).2 acc.label_to_id).isSome = true
            rw [ht]; rfl
        · obtain ⟨rec, hrec, hid, h1, h2⟩ := hloc p h
          exact ⟨rec, hrec, hid, h1, h2⟩

/-- **C7**: For every constructed Graph Store, every stored edge's source
and target are keys in the node index, and every stored edge originates
from an input edge record both of whose endpoint labels resolve in the
label-to-id map — an edge with an unresolved endpoint label is dropped and
never enters the store, so no dangling reference persists past
construction. -/
theorem C7_edge_endpoint_invariant (node_list edge_list : List Record)
    (nle ele : Record → String) (nee : Record → String × String)
    (st : GraphStorage)
    (hst : st = GraphStorage.init node_list edge_list nle ele nee) :
    (∀ p ∈ st.edges, (dlookup p.2.source st.nodes).isSome ∧
      (dlookup p.2.target st.nodes).isSome) ∧
    (∀ p ∈ st.edges, ∃ rec ∈ edge_list, get_model_id rec = p.1 ∧
      (dlookup (nee rec).1 st.label_to_id).isSome ∧
      (dlookup (nee rec).2 st.label_to_id).isSome) := by
  subst hst
  refine ⟨fun p hp => ?_, ginit_edges_origin node_list edge_list nle ele nee⟩
  obtain ⟨-, -, h1, h2⟩ :=
    (ginit_wf node_list edge_list nle ele nee).edges_wf p hp
  exact ⟨h1, h2⟩

/-- A graph input with one edge (`B-D`) whose target label is absent from
the node list. -/
def recBD : Record := [("src", "B"), ("dst", "D")]

def dropStore : GraphStorage :=
  GraphStorage.init [recA, recB] [recAB, recBD] nameOf edgeLabelOf endpointsOf

/-- Witness for `C7_edge_endpoint_invariant` at a store whose input
contains an unresolvable edge. -/
theorem C7_witness :
    (dropStore = GraphStorage.init [recA, recB] [recAB, recBD]
      nameOf edgeLabelOf endpointsOf) ∧
    ((∀ p ∈ dropStore.edges, (dlookup p.2.source dropStore.nodes).isSome ∧
        (dlookup p.2.target dropStore.nodes).isSome) ∧
     (∀ p ∈ dropStore.edges, ∃ rec ∈ [recAB, recBD], get_model_id rec = p.1 ∧
        (dlookup (endpointsOf rec).1 dropStore.label_to_id).isSome ∧
        (dlookup (endpointsOf rec).2 dropStore.label_to_id).isSome)) :=
  ⟨rfl, C7_edge_endpoint_invariant [recA, recB] [recAB, recBD]
    nameOf edgeLabelOf endpointsOf dropStore rfl⟩

/-! ## C5: self-loop handling -/

/-- **C5 counterexample**: in a Graph Store built with the self-loop edge
`A-A`, the edge appears *twice* (not once) in `A`'s incident-edge list —
`__init__` appends the edge ID once per endpoint role, and for a self-loop
both appends hit the same list. -/
theorem C5_counterexample :
    ((dlookup (get_model_id recA) loopStore.incident_edges).getD []).count
        (get_model_id recAA) = 2 ∧
    ¬(((dlookup (get_model_id recA) loopStore.incident_edges).getD []).count
        (get_model_id recAA) = 1) := by
  constructor
  · decide
  · decide

/-- **C5 (amended)**: in a Graph Store built with a self-loop edge `A-A`,
node `A`'s degree counter is unaffected by that edge (it stays 0), the
edge is stored, it appears exactly *twice* in `A`'s incident-edge list
(once per endpoint role), and it is traversable: `get_sample` around `A`
with `hops = 1` returns it. -/
theorem C5_selfloop_amended :
    dlookup (get_model_id recA) loopStore.deg_node = some 0 ∧
    (dlookup (get_model_id recAA) loopStore.edges).isSome ∧
    ((dlookup (get_model_id recA) loopStore.incident_edges).getD []).count
        (get_model_id recAA) = 2 ∧
    get_model_id recAA ∈
      (loopStore.get_sample [get_model_id recA] 1 false 0).edges.map EdgeEntry.id := by
  refine ⟨by decide, by decide, by decide, by decide⟩

/-! ## Hypergraph Store (`src/ontosight/core/storage/hypergraph.py`) -/

/-- A stored hyperedge (`{id, linked_nodes, data: {label, raw}}`). -/
structure HyperedgeEntry where
  id : String
  linked_nodes : List String
  label : String
  raw : Record
  highlighted : Option Bool
deriving Repr, DecidableEq

/-- A synthetic binary layout edge derived from a hyperedge for rendering
(`{id, source, target}`; no label, no payload). -/
structure LayoutEdge where
  id : String
  source : String
  target : String
deriving Repr, DecidableEq

structure HypergraphStorage where
  label_to_id : List (String × String)
  nodes : List (String × NodeEntry)
  node_deg : List (String × Nat)
  hyperedges : List (String × HyperedgeEntry)
  node_to_hyperedges : List (String × List String)
deriving Repr, DecidableEq

def hInitNodeStep (node_name_extractor : Record → String)
    (st : HypergraphStorage) (node : Record) : HypergraphStorage :=
  let label := node_name_extractor node
  let node_id := get_model_id node
  { st with
    label_to_id := dinsert label node_id st.label_to_id
    node_deg := dinsert node_id 0 st.node_deg
    nodes := dinsert node_id ⟨node_id, label, node, none⟩ st.nodes }

/-- The degree pass of `HypergraphStorage.__init__`: for every label of
every hyperedge record, bump the degree of the node it resolves to.
(Python also skips an empty-string ID — `if node_id:` — which cannot arise
from the 6-hex-digit `get_model_id`.) -/
def hDegStep (nodes_in_edge_extractor : Record → List String)
    (st : HypergraphStorage) (edge : Record) : HypergraphStorage :=
  { st with
    node_deg := (nodes_in_edge_extractor edge).foldl (fun d node_label =>
      match dlookup node_label st.label_to_id with
      | some node_id => if node_id ≠ "" then dmodify node_id (· + 1) d else d
      | none => d) st.node_deg }

def hInitEdgeStep (edge_name_extractor : Record → String)
    (nodes_in_edge_extractor : Record → List String)
    (st : HypergraphStorage) (edge : Record) : HypergraphStorage :=
  let node_ids := (nodes_in_edge_extractor edge).filterMap
    (fun label => dlookup label st.label_to_id)
  if node_ids.isEmpty then st  -- hyperedge with no valid nodes: warning, dropped
  else
    let he_id := get_model_id edge
    { st with
      hyperedges := dinsert he_id
        ⟨he_id, node_ids, edge_name_extractor edge, edge, none⟩ st.hyperedges
      node_to_hyperedges := node_ids.foldl
        (fun m node_id => dmodify node_id (sinsert he_id) m)
        st.node_to_hyperedges }

/-- The store state after the node loop, the degree pass and the
`node_to_hyperedges` initialization of `HypergraphStorage.__init__`. -/
def hInitBase (node_name_extractor : Record → String)
    (nodes_in_edge_extractor : Record → List String)
    (node_list edge_list : List Record) : HypergraphStorage :=
  let st1 := node_list.foldl (hInitNodeStep node_name_extractor) ⟨[], [], [], [], []⟩
  let st2 := edge_list.foldl (hDegStep nodes_in_edge_extractor) st1
  { st2 with node_to_hyperedges := st2.nodes.map (fun p => (p.1, [])) }

/-- `HypergraphStorage.__init__`. -/
def HypergraphStorage.init (node_list edge_list : List Record)
    (node_name_extractor edge_name_extractor : Record → String)
    (nodes_in_edge_extractor : Record → List String) : HypergraphStorage :=
  edge_list.foldl (hInitEdgeStep edge_name_extractor nodes_in_edge_extractor)
    (hInitBase node_name_extractor nodes_in_edge_extractor node_list edge_list)

/-- The result shape of `HypergraphStorage.get_sample`. -/
structure HSample where
  nodes : List NodeEntry
  edges : List LayoutEdge
  hyperedges : List HyperedgeEntry
deriving Repr, DecidableEq

/-- Center-scan loop of `HypergraphStorage.get_sample`: node IDs join the
visited-node set; hyperedge IDs join the visited-hyperedge set and pour
all their linked nodes into the visited-node set. -/
def hCenterStep (st : HypergraphStorage) (highlight_center : Bool)
    (acc : List String × List String × List String × List String)
    (element_id : String) :
    List String × List String × List String × List String :=
  let (vn, vh, cn, ch) := acc
  if (dlookup element_id st.nodes).isSome then
    (sinsert element_id vn, vh,
     if highlight_center then sinsert element_id cn else cn, ch)
  else
    match dlookup element_id st.hyperedges with
    | some he =>
      (he.linked_nodes.foldl (fun s nid => sinsert nid s) vn,
       sinsert element_id vh, cn,
       if highlight_center then sinsert element_id ch else ch)
    | none => acc

/-- Adding one linked node during the BFS: skip if already visited,
otherwise visit it and put it on the next frontier.  Accumulator:
(visited_nodes, next_layer). -/
def hAddNode (acc : List String × List String) (nid : String) :
    List String × List String :=
  if nid ∈ acc.1 then acc else (acc.1 ++ [nid], acc.2 ++ [nid])

/-- One hyperedge visit inside the BFS round: skip visited hyperedges,
otherwise mark visited and add all linked nodes.  Accumulator:
(visited_nodes, visited_hyperedges, next_layer).  (A hyperedge ID missing
from the dict cannot occur in a constructed store; Python would raise
`KeyError`.) -/
def hStepHe (st : HypergraphStorage)
    (acc : List String × List String × List String) (he_id : String) :
    List String × List String × List String :=
  let (vn, vh, nl) := acc
  if he_id ∈ vh then acc
  else
    let vh' := vh ++ [he_id]
    match dlookup he_id st.hyperedges with
    | none => (vn, vh', nl)
    | some he =>
      let r := he.linked_nodes.foldl hAddNode (vn, nl)
      (r.1, vh', r.2)

def hRound (st : HypergraphStorage) (vn vh cl : List String) :
    List String × List String × List String :=
  cl.foldl (fun acc node_id =>
      ((dlookup node_id st.node_to_hyperedges).getD []).foldl (hStepHe st) acc)
    (vn, vh, [])

def hBfs (st : HypergraphStorage) : Nat → List String → List String →
    List String → List String × List String
  | 0, vn, vh, _ => (vn, vh)
  | hops + 1, vn, vh, cl =>
    let (vn', vh', nl) := hRound st vn vh cl
    hBfs st hops vn' vh' nl

def hCollectNodes (st : HypergraphStorage) (highlight_center : Bool)
    (cn vn : List String) : List NodeEntry :=
  vn.filterMap (fun node_id =>
    (dlookup node_id st.nodes).map (fun e =>
      if highlight_center ∧ node_id ∈ cn then { e with highlighted := some true }
      else e))

def hCollectHes (st : HypergraphStorage) (highlight_center : Bool)
    (ch vh : List String) : List HyperedgeEntry :=
  vh.filterMap (fun he_id =>
    (dlookup he_id st.hyperedges).map (fun e =>
      if highlight_center ∧ he_id ∈ ch then { e with highlighted := some true }
      else e))

/-- `min(node_list, key=lambda nid: self.node_deg.get(nid, 0))`: the first
member of minimum degree (only called on non-empty lists). -/
def hMinDegHub (st : HypergraphStorage) : List String → String
  | [] => ""
  | x :: xs => xs.foldl (fun best nid =>
      if (dlookup nid st.node_deg).getD 0 < (dlookup best st.node_deg).getD 0
      then nid else best) x

/-- One layout edge per non-hub member; the fresh random edge ID is drawn
from the explicit RNG state (`seed` plus the running draw counter). -/
def hLayoutStep (seed : Nat) (hub : String) (acc : List LayoutEdge × Nat)
    (nid : String) : List LayoutEdge × Nat :=
  if nid ≠ hub then
    (acc.1 ++ [⟨get_random_id (seed + acc.2), hub, nid⟩], acc.2 + 1)
  else acc

def hLayoutHeStep (st : HypergraphStorage) (seed : Nat)
    (acc : List LayoutEdge × Nat) (he : HyperedgeEntry) :
    List LayoutEdge × Nat :=
  if he.linked_nodes.isEmpty then acc
  else he.linked_nodes.foldl (hLayoutStep seed (hMinDegHub st he.linked_nodes)) acc

/-- Layout-edge synthesis over the sampled hyperedges: for each one, pick
the minimum-degree member as hub and emit one synthetic edge from the hub
to every other member, each with a freshly drawn random ID. -/
def hLayoutEdges (st : HypergraphStorage) (seed : Nat)
    (hes : List HyperedgeEntry) : List LayoutEdge :=
  (hes.foldl (hLayoutHeStep st seed) ([], 0)).1

/-- `HypergraphStorage.get_sample`. -/
def HypergraphStorage.get_sample (st : HypergraphStorage)
    (center_ids : List String) (hops : Nat) (highlight_center : Bool)
    (seed : Nat) : HSample :=
  let center_ids := if center_ids.isEmpty then
      let pool := (st.nodes.map (·.1)).filter
        (fun nid => 0 < (dlookup nid st.node_deg).getD 0)
      if pool.isEmpty then [] else [pool.getD (seed % pool.length) ""]
    else center_ids
  let scan := center_ids.foldl (hCenterStep st highlight_center) ([], [], [], [])
  if scan.1.isEmpty then ⟨[], [], []⟩
  else
    let bfs := hBfs st hops scan.1 scan.2.1 scan.1
    let sub_hyperedges := hCollectHes st highlight_center scan.2.2.2 bfs.2
    ⟨hCollectNodes st highlight_center scan.2.2.1 bfs.1,
     hLayoutEdges st seed sub_hyperedges,
     sub_hyperedges⟩

/-- `HypergraphStorage.get_all_nodes_paginated`. -/
def HypergraphStorage.get_all_nodes_paginated (st : HypergraphStorage)
    (page page_size : Nat) : PageResult (PageItem NodeEntry) :=
  let node_items := st.nodes.map (·.2)
  ⟨(pageSlice node_items page page_size).map (fun n => ⟨n, n.label, "node"⟩),
   page, page_size, node_items.length,
   decide (page * page_size + page_size < node_items.length)⟩

/-- `HypergraphStorage.get_all_hyperedges_paginated`. -/
def HypergraphStorage.get_all_hyperedges_paginated (st : HypergraphStorage)
    (page page_size : Nat) : PageResult (PageItem HyperedgeEntry) :=
  let he_items := st.hyperedges.map (·.2)
  ⟨(pageSlice he_items page page_size).map (fun e => ⟨e, e.label, "hyperedge"⟩),
   page, page_size, he_items.length,
   decide (page * page_size + page_size < he_items.length)⟩

/-- `HypergraphStorage.get_sample_from_data`.  The unresolved-record paths
format their warning through `self.node_label_extractor` /
`self.hyperedge_label_extractor` — attributes `__init__` never assigns (it
stores `node_name_extractor` / `edge_name_extractor`), so reaching either
warning raises `AttributeError`, modelled as `Except.error`. -/
def HypergraphStorage.get_sample_from_data (st : HypergraphStorage)
    (node_list hyperedge_list : List Record) (hops : Nat)
    (highlight_center : Bool) (seed : Nat) : Except String HSample :=
  match node_list.foldl (fun (acc : Except String (List String)) node =>
    match acc with
    | .error e => .error e
    | .ok ids =>
      let node_id := get_model_id node
      if (dlookup node_id st.nodes).isSome then .ok (ids ++ [node_id])
      else .error "AttributeError: HypergraphStorage has no attribute node_label_extractor")
    (.ok []) with
  | .error e => .error e
  | .ok node_ids =>
    match hyperedge_list.foldl (fun (acc : Except String (List String)) hyperedge =>
      match acc with
      | .error e => .error e
      | .ok ids =>
        let hyperedge_id := get_model_id hyperedge
        if (dlookup hyperedge_id st.hyperedges).isSome then .ok (ids ++ [hyperedge_id])
        else .error "AttributeError: HypergraphStorage has no attribute hyperedge_label_extractor")
      (.ok []) with
    | .error e => .error e
    | .ok hyperedge_ids =>
      let all_ids := node_ids ++ hyperedge_ids
      if all_ids.isEmpty then .ok ⟨[], [], []⟩
      else .ok (st.get_sample all_ids hops highlight_center seed)

/-! ## Hypergraph Store: construction invariant -/

structure HyperWF (st : HypergraphStorage) : Prop where
  nodes_id : ∀ p ∈ st.nodes, p.2.id = p.1 ∧ p.2.highlighted = none
  label_values : ∀ lab nid, dlookup lab st.label_to_id = some nid →
    (dlookup nid st.nodes).isSome
  hes_wf : ∀ p ∈ st.hyperedges, p.2.id = p.1 ∧ p.2.highlighted = none ∧
    ∀ v ∈ p.2.linked_nodes, (dlookup v st.nodes).isSome

theorem hInitBase_inv (nne : Record → String) (nie : Record → List String)
    (node_list edge_list : List Record) :
    (∀ p ∈ (hInitBase nne nie node_list edge_list).nodes,
      p.2.id = p.1 ∧ p.2.highlighted = none) ∧
    (∀ lab nid, dlookup lab (hInitBase nne nie node_list edge_list).label_to_id =
      some nid → (dlookup nid (hInitBase nne nie node_list edge_list).nodes).isSome) ∧
    (hInitBase nne nie node_list edge_list).hyperedges = [] := by
  have h1 := foldl_invariant (fun (st : HypergraphStorage) =>
    (∀ p ∈ st.nodes, p.2.id = p.1 ∧ p.2.highlighted = none) ∧
    (∀ lab nid, dlookup lab st.label_to_id = some nid →
      (dlookup nid st.nodes).isSome) ∧
    st.hyperedges = []) (hInitNodeStep nne) node_list
    ⟨[], [], [], [], []⟩
    ⟨by simp, by intro lab nid h; simp [dlookup] at h, rfl⟩
    ?_
  · have h2 := foldl_invariant (fun (st : HypergraphStorage) =>
      (∀ p ∈ st.nodes, p.2.id = p.1 ∧ p.2.highlighted = none) ∧
      (∀ lab nid, dlookup lab st.label_to_id = some nid →
        (dlookup nid st.nodes).isSome) ∧
      st.hyperedges = []) (hDegStep nie) edge_list
      (node_list.foldl (hInitNodeStep nne) ⟨[], [], [], [], []⟩) h1
      (fun acc edge _ h => h)
    exact h2
  · rintro st node _ ⟨ha, hb, hc⟩
    refine ⟨?_, ?_, hc⟩
    · intro p hp
      rcases dinsert_mem hp with h | h
      · subst h; exact ⟨rfl, rfl⟩
      · exact ha p h
    · intro lab nid h
      simp only [hInitNodeStep] at h ⊢
      rw [dinsert_dlookup] at h
      rw [dinsert_dlookup]
      by_cases h1 : lab = nne node
      · rw [if_pos h1] at h
        cases h
        simp
      · rw [if_neg h1] at h
        by_cases h2 : nid = get_model_id node
        · simp [h2]
        · simp only [if_neg h2]
          exact hb lab nid h

theorem hinit_wf (node_list edge_list : List Record)
    (nne ene : Record → String) (nie : Record → List String) :
    HyperWF (HypergraphStorage.init node_list edge_list nne ene nie) := by
  obtain ⟨ha, hb, hc⟩ := hInitBase_inv nne nie node_list edge_list
  unfold HypergraphStorage.init
  have inv := foldl_invariant (fun (st' : HypergraphStorage) =>
    (∀ p ∈ st'.nodes, p.2.id = p.1 ∧ p.2.highlighted = none) ∧
    (∀ lab nid, dlookup lab st'.label_to_id = some nid →
      (dlookup nid st'.nodes).isSome) ∧
    (∀ p ∈ st'.hyperedges, p.2.id = p.1 ∧ p.2.highlighted = none ∧
      ∀ v ∈ p.2.linked_nodes, (dlookup v st'.nodes).isSome))
    (hInitEdgeStep ene nie) edge_list
    (hInitBase nne nie node_list edge_list)
    ⟨ha, hb, by rw [hc]; intro p hp; simp at hp⟩ ?_
  · exact ⟨inv.1, inv.2.1, inv.2.2⟩
  · rintro acc edge _ ⟨ka, kb, kc⟩
    by_cases hempty : ((nie edge).filterMap
        (fun label => dlookup label acc.label_to_id)).isEmpty
    · have hred : hInitEdgeStep ene nie acc edge = acc := by
        simp [hInitEdgeStep, hempty]
      rw [hred]
      exact ⟨ka, kb, kc⟩
    · have hred : hInitEdgeStep ene nie acc edge =
          { acc with
            hyperedges := dinsert (get_model_id edge)
              ⟨get_model_id edge,
               (nie edge).filterMap (fun label => dlookup label acc.label_to_id),
               ene edge, edge, none⟩ acc.hyperedges
            node_to_hyperedges :=
              ((nie edge).filterMap (fun label => dlookup label acc.label_to_id)).foldl
                (fun m node_id => dmodify node_id (sinsert (get_model_id edge)) m)
                acc.node_to_hyperedges } := by
        simp [hInitEdgeStep, hempty]
      rw [hred]
      refine ⟨ka, kb, ?_⟩
      intro p hp
      rcases dinsert_mem hp with h | h
      · subst h
        refine ⟨rfl, rfl, ?_⟩
        intro v hv
        rcases List.mem_filterMap.mp hv with ⟨lab, _, hlab⟩
        exact kb lab v hlab
      · exact kc p h

/-! ## Hypergraph Store: closure of returned hyperedges -/

theorem sfold_mem (l : List String) :
    ∀ (s : List String) (x : String),
      x ∈ l.foldl (fun acc y => sinsert y acc) s ↔ x ∈ s ∨ x ∈ l := by
  induction l with
  | nil => intro s x; simp
  | cons y ys ih =>
    intro s x
    rw [List.foldl_cons, ih, sinsert_mem]
    simp only [List.mem_cons]
    tauto

theorem hAddNode_fold (l : List String) :
    ∀ (acc : List String × List String),
      (∀ x, x ∈ (l.foldl hAddNode acc).1 ↔ x ∈ acc.1 ∨ x ∈ l) ∧
      (∀ x ∈ (l.foldl hAddNode acc).2, x ∈ acc.2 ∨ x ∈ l) := by
  induction l with
  | nil => intro acc; simp
  | cons y ys ih =>
    intro acc
    by_cases hy : y ∈ acc.1
    · have hred : hAddNode acc y = acc := by simp [hAddNode, hy]
      rw [List.foldl_cons, hred]
      obtain ⟨ih1, ih2⟩ := ih acc
      refine ⟨fun x => ?_, fun x hx => ?_⟩
      · rw [ih1]
        simp only [List.mem_cons]
        constructor
        · rintro (hx | hx)
          · exact Or.inl hx
          · exact Or.inr (Or.inr hx)
        · rintro (hx | rfl | hx)
          · exact Or.inl hx
          · exact Or.inl hy
          · exact Or.inr hx
      · rcases ih2 x hx with h | h
        · exact Or.inl h
        · exact Or.inr (List.mem_cons_of_mem _ h)
    · have hred : hAddNode acc y = (acc.1 ++ [y], acc.2 ++ [y]) := by
        simp [hAddNode, hy]
      rw [List.foldl_cons, hred]
      obtain ⟨ih1, ih2⟩ := ih (acc.1 ++ [y], acc.2 ++ [y])
      refine ⟨fun x => ?_, fun x hx => ?_⟩
      · rw [ih1]
        simp only [List.mem_append, List.mem_singleton, List.mem_cons]
        tauto
      · rcases ih2 x hx with h | h
        · rcases List.mem_append.mp h with h | h
          · exact Or.inl h
          · rw [List.mem_singleton] at h
            exact Or.inr (by simp [h])
        · exact Or.inr (List.mem_cons_of_mem _ h)

/-- Invariant carried through the hypergraph BFS: every visited node is a
node key, and every visited hyperedge has all its stored linked nodes
already in the visited-node set. -/
def HClosed (st : HypergraphStorage) (vn vh : List String) : Prop :=
  (∀ x ∈ vn, (dlookup x st.nodes).isSome) ∧
  (∀ h ∈ vh, ∀ e, dlookup h st.hyperedges = some e →
    ∀ v ∈ e.linked_nodes, v ∈ vn)

theorem hStepHe_closed (st : HypergraphStorage)
    (hwf : ∀ p ∈ st.hyperedges, ∀ v ∈ p.2.linked_nodes,
      (dlookup v st.nodes).isSome)
    (acc : List String × List String × List String) (he_id : String)
    (hacc : HClosed st acc.1 acc.2.1) :
    HClosed st (hStepHe st acc he_id).1 (hStepHe st acc he_id).2.1 := by
  obtain ⟨vn, vh, nl⟩ := acc
  obtain ⟨hsome, hclosed⟩ := hacc
  by_cases h1 : he_id ∈ vh
  · have hred : hStepHe st (vn, vh, nl) he_id = (vn, vh, nl) := by
      simp [hStepHe, h1]
    rw [hred]
    exact ⟨hsome, hclosed⟩
  · cases h2 : dlookup he_id st.hyperedges with
    | none =>
      have hred : hStepHe st (vn, vh, nl) he_id = (vn, vh ++ [he_id], nl) := by
        simp [hStepHe, h1, h2]
      rw [hred]
      refine ⟨hsome, ?_⟩
      intro h hh e he v hv
      rcases List.mem_append.mp hh with hh | hh
      · exact hclosed h hh e he v hv
      · rw [List.mem_singleton] at hh
        subst hh
        rw [h2] at he
        cases he
    | some he =>
      obtain ⟨hiff, _⟩ := hAddNode_fold he.linked_nodes (vn, nl)
      have hred : hStepHe st (vn, vh, nl) he_id =
          ((he.linked_nodes.foldl hAddNode (vn, nl)).1, vh ++ [he_id],
           (he.linked_nodes.foldl hAddNode (vn, nl)).2) := by
        simp [hStepHe, h1, h2]
      rw [hred]
      constructor
      · intro x hx
        rcases (hiff x).mp hx with h | h
        · exact hsome x h
        · exact hwf (he_id, he) (dlookup_mem h2) x h
      · intro h hh e hee v hv
        rcases List.mem_append.mp hh with hh | hh
        · exact (hiff v).mpr (Or.inl (hclosed h hh e hee v hv))
        · rw [List.mem_singleton] at hh
          subst hh
          rw [h2] at hee
          cases hee
          exact (hiff v).mpr (Or.inr hv)

theorem hRound_closed (st : HypergraphStorage)
    (hwf : ∀ p ∈ st.hyperedges, ∀ v ∈ p.2.linked_nodes,
      (dlookup v st.nodes).isSome)
    (vn vh cl : List String) (h0 : HClosed st vn vh) :
    HClosed st (hRound st vn vh cl).1 (hRound st vn vh cl).2.1 := by
  unfold hRound
  refine foldl_invariant (fun (acc : List String × List String × List String) =>
    HClosed st acc.1 acc.2.1) _ cl _ h0 ?_
  rintro acc node_id _ hacc
  exact foldl_invariant (fun (acc2 : List String × List String × List String) =>
    HClosed st acc2.1 acc2.2.1) (hStepHe st) _ acc hacc
    (fun acc2 he_id _ h => hStepHe_closed st hwf acc2 he_id h)

theorem hBfs_closed (st : HypergraphStorage)
    (hwf : ∀ p ∈ st.hyperedges, ∀ v ∈ p.2.linked_nodes,
      (dlookup v st.nodes).isSome) :
    ∀ (hops : Nat) (vn vh cl : List String), HClosed st vn vh →
      HClosed st (hBfs st hops vn vh cl).1 (hBfs st hops vn vh cl).2 := by
  intro hops
  induction hops with
  | zero => intro vn vh cl h; exact h
  | succ n ih =>
    intro vn vh cl h
    rcases hR : hRound st vn vh cl with ⟨vn', vh', nl⟩
    rw [show hBfs st (n + 1) vn vh cl = hBfs st n vn' vh' nl by rw [hBfs, hR]]
    have := hRound_closed st hwf vn vh cl h
    rw [hR] at this
    exact ih vn' vh' nl this

theorem hCenterScan_closed (st : HypergraphStorage)
    (hwf : ∀ p ∈ st.hyperedges, ∀ v ∈ p.2.linked_nodes,
      (dlookup v st.nodes).isSome)
    (flag : Bool) (ids : List String) :
    HClosed st (ids.foldl (hCenterStep st flag) ([], [], [], [])).1
      (ids.foldl (hCenterStep st flag) ([], [], [], [])).2.1 := by
  refine foldl_invariant
    (fun (acc : List String × List String × List String × List String) =>
      HClosed st acc.1 acc.2.1) _ ids _ ⟨by simp, by simp⟩ ?_
  rintro acc i _ ⟨hsome, hclosed⟩
  obtain ⟨vn, vh, cn, ch⟩ := acc
  by_cases hn : (dlookup i st.nodes).isSome
  · have hred : hCenterStep st flag (vn, vh, cn, ch) i =
        (sinsert i vn, vh, if flag then sinsert i cn else cn, ch) := by
      simp [hCenterStep, hn]
    rw [hred]
    constructor
    · intro x hx
      rcases (sinsert_mem i x vn).mp hx with rfl | hx
      · exact hn
      · exact hsome x hx
    · intro h hh e he v hv
      exact sinsert_sub i vn (hclosed h hh e he v hv)
  · cases he : dlookup i st.hyperedges with
    | some hedge =>
      have hred : hCenterStep st flag (vn, vh, cn, ch) i =
          (hedge.linked_nodes.foldl (fun s nid => sinsert nid s) vn,
           sinsert i vh, cn, if flag then sinsert i ch else ch) := by
        simp [hCenterStep, hn, he]
      rw [hred]
      constructor
      · intro x hx
        rcases (sfold_mem hedge.linked_nodes vn x).mp hx with hx | hx
        · exact hsome x hx
        · exact hwf (i, hedge) (dlookup_mem he) x hx
      · intro h hh e hee v hv
        rcases (sinsert_mem i h vh).mp hh with rfl | hh
        · rw [he] at hee
          cases hee
          exact (sfold_mem hedge.linked_nodes vn v).mpr (Or.inr hv)
        · exact (sfold_mem hedge.linked_nodes vn v).mpr
            (Or.inl (hclosed h hh e hee v hv))
    | none =>
      have hred : hCenterStep st flag (vn, vh, cn, ch) i = (vn, vh, cn, ch) := by
        simp [hCenterStep, hn, he]
      rw [hred]
      exact ⟨hsome, hclosed⟩

theorem hCollectNodes_ids (st : HypergraphStorage) (flag : Bool)
    (cn : List String)
    (hwf : ∀ p ∈ st.nodes, p.2.id = p.1 ∧ p.2.highlighted = none) :
    ∀ (vn : List String), (∀ x ∈ vn, (dlookup x st.nodes).isSome) →
      (hCollectNodes st flag cn vn).map NodeEntry.id = vn := by
  intro vn
  induction vn with
  | nil => intro _; simp [hCollectNodes]
  | cons x xs ih =>
    intro hall
    cases hl : dlookup x st.nodes with
    | none =>
      have := hall x (by simp)
      rw [hl] at this
      simp at this
    | some e =>
      have hid := (hwf (x, e) (dlookup_mem hl)).1
      have hrest := ih (fun y hy => hall y (List.mem_cons_of_mem _ hy))
      unfold hCollectNodes at hrest ⊢
      rw [List.filterMap_cons, hl]
      simp only [Option.map_some', List.map_cons, hrest]
      congr 1
      by_cases hc : flag = true ∧ x ∈ cn
      · rw [if_pos hc]; exact hid
      · rw [if_neg hc]; exact hid

theorem hCollectHes_spec (st : HypergraphStorage) (flag : Bool)
    (ch vh : List String)
    (hwf : ∀ p ∈ st.hyperedges, p.2.id = p.1 ∧ p.2.highlighted = none) :
    ∀ e ∈ hCollectHes st flag ch vh,
      e.id ∈ vh ∧
      (∃ orig, dlookup e.id st.hyperedges = some orig ∧
        e.linked_nodes = orig.linked_nodes) ∧
      e.highlighted = (if flag = true ∧ e.id ∈ ch then some true else none) := by
  intro n hn
  rcases List.mem_filterMap.mp hn with ⟨hid0, hvh, hf⟩
  cases hl : dlookup hid0 st.hyperedges with
  | none => rw [hl] at hf; simp at hf
  | some e =>
    rw [hl] at hf
    simp only [Option.map_some', Option.some.injEq] at hf
    have hid : e.id = hid0 := (hwf (hid0, e) (dlookup_mem hl)).1
    have hhl : e.highlighted = none := (hwf (hid0, e) (dlookup_mem hl)).2
    by_cases hc : flag = true ∧ hid0 ∈ ch
    · rw [if_pos hc] at hf
      subst hf
      refine ⟨by simpa [hid] using hvh, ⟨e, by simp [hid, hl], rfl⟩, ?_⟩
      show some true = _
      simp only [hid]
      rw [if_pos hc]
    · rw [if_neg hc] at hf
      subst hf
      refine ⟨by simpa [hid] using hvh, ⟨e, by simp [hid, hl], rfl⟩, ?_⟩
      rw [hhl, hid, if_neg hc]

/-- Reduction of the hypergraph `get_sample` when centers are supplied. -/
theorem h_get_sample_eq (st : HypergraphStorage) (ids : List String)
    (hops : Nat) (flag : Bool) (seed : Nat) (hids : ids ≠ []) :
    st.get_sample ids hops flag seed =
      if (ids.foldl (hCenterStep st flag) ([], [], [], [])).1.isEmpty
      then ⟨[], [], []⟩
      else
        ⟨hCollectNodes st flag
          (ids.foldl (hCenterStep st flag) ([], [], [], [])).2.2.1
          (hBfs st hops (ids.foldl (hCenterStep st flag) ([], [], [], [])).1
            (ids.foldl (hCenterStep st flag) ([], [], [], [])).2.1
            (ids.foldl (hCenterStep st flag) ([], [], [], [])).1).1,
         hLayoutEdges st seed (hCollectHes st flag
          (ids.foldl (hCenterStep st flag) ([], [], [], [])).2.2.2
          (hBfs st hops (ids.foldl (hCenterStep st flag) ([], [], [], [])).1
            (ids.foldl (hCenterStep st flag) ([], [], [], [])).2.1
            (ids.foldl (hCenterStep st flag) ([], [], [], [])).1).2),
         hCollectHes st flag
          (ids.foldl (hCenterStep st flag) ([], [], [], [])).2.2.2
          (hBfs st hops (ids.foldl (hCenterStep st flag) ([], [], [], [])).1
            (ids.foldl (hCenterStep st flag) ([], [], [], [])).2.1
            (ids.foldl (hCenterStep st flag) ([], [], [], [])).1).2⟩ := by
  have h0 : ids.isEmpty = false := by
    cases ids with
    | nil => exact absurd rfl hids
    | cons a l => rfl
  simp only [HypergraphStorage.get_sample, h0, Bool.false_eq_true, if_false]

/-- Hyperedge record `{A, B, C}` of spec §8 scenario 2. -/
def he1rec : Record := [("name", "he1"), ("members", "A B C")]

/-- Hyperedge record `{C, D}` of spec §8 scenario 2. -/
def he2rec : Record := [("name", "he2"), ("members", "C D")]

/-- Space-splitting helper for the hyperedge-membership extractor of the
test fixtures (structural recursion, so the kernel can evaluate it). -/
def splitChars (sep : Char) : List Char → List (List Char)
  | [] => [[]]
  | c :: rest =>
    match splitChars sep rest with
    | [] => []
    | w :: ws => if c = sep then [] :: w :: ws else (c :: w) :: ws

def membersOf (r : Record) : List String :=
  (splitChars ' ' ((dlookup "members" r).getD "").data).map String.mk

/-- Spec §8 scenario 2: hypergraph with hyperedges `{A,B,C}` and `{C,D}`. -/
def hgStore : HypergraphStorage :=
  HypergraphStorage.init [recA, recB, recC, recD] [he1rec, he2rec]
    nameOf nameOf membersOf

/-- **C2**: each hypergraph BFS round expands a frontier node to all
hyperedges containing it and adds *every* member node of each such
hyperedge — so every returned hyperedge has all its member nodes in the
returned node set — and, on the store with hyperedges `{A,B,C}` and
`{C,D}`, `get_sample(["A"], hops=1)` returns exactly the nodes `{A,B,C}`
(not `D`), while `get_sample(["A"], hops=2)` returns exactly
`{A,B,C,D}`. -/
theorem C2_hypergraph_expansion :
    (∀ (node_list edge_list : List Record) (nne ene : Record → String)
       (nie : Record → List String) (st : HypergraphStorage),
       st = HypergraphStorage.init node_list edge_list nne ene nie →
       ∀ (ids : List String) (hops : Nat) (flag : Bool) (seed : Nat),
         ids ≠ [] →
         ∀ he ∈ (st.get_sample ids hops flag seed).hyperedges,
           ∀ v ∈ he.linked_nodes,
             v ∈ (st.get_sample ids hops flag seed).nodes.map NodeEntry.id) ∧
    ((hgStore.get_sample [get_model_id recA] 1 false 0).nodes.map
       NodeEntry.id).Perm
      [get_model_id recA, get_model_id recB, get_model_id recC] ∧
    (get_model_id recD ∉
      (hgStore.get_sample [get_model_id recA] 1 false 0).nodes.map
        NodeEntry.id) ∧
    ((hgStore.get_sample [get_model_id recA] 2 false 0).nodes.map
       NodeEntry.id).Perm
      [get_model_id recA, get_model_id recB, get_model_id recC,
       get_model_id recD] := by
  refine ⟨?_, by decide, by decide, by decide⟩
  intro node_list edge_list nne ene nie st hst ids hops flag seed hids he hhe v hv
  have hwf : HyperWF st := hst ▸ hinit_wf node_list edge_list nne ene nie
  have hlinked : ∀ p ∈ st.hyperedges, ∀ w ∈ p.2.linked_nodes,
      (dlookup w st.nodes).isSome := fun p hp => (hwf.hes_wf p hp).2.2
  rw [h_get_sample_eq st ids hops flag seed hids] at hhe ⊢
  by_cases hempty : (ids.foldl (hCenterStep st flag) ([], [], [], [])).1.isEmpty
  · rw [if_pos hempty] at hhe
    simp at hhe
  · rw [if_neg hempty] at hhe ⊢
    have hscan := hCenterScan_closed st hlinked flag ids
    have hclosed := hBfs_closed st hlinked hops
      (ids.foldl (hCenterStep st flag) ([], [], [], [])).1
      (ids.foldl (hCenterStep st flag) ([], [], [], [])).2.1
      (ids.foldl (hCenterStep st flag) ([], [], [], [])).1 hscan
    obtain ⟨hid_vh, ⟨orig, horig, hlinkeq⟩, -⟩ :=
      hCollectHes_spec st flag
        (ids.foldl (hCenterStep st flag) ([], [], [], [])).2.2.2
        (hBfs st hops (ids.foldl (hCenterStep st flag) ([], [], [], [])).1
          (ids.foldl (hCenterStep st flag) ([], [], [], [])).2.1
          (ids.foldl (hCenterStep st flag) ([], [], [], [])).1).2
        (fun p hp => ⟨(hwf.hes_wf p hp).1, (hwf.hes_wf p hp).2.1⟩) he hhe
    have hv_vn : v ∈ (hBfs st hops
        (ids.foldl (hCenterStep st flag) ([], [], [], [])).1
        (ids.foldl (hCenterStep st flag) ([], [], [], [])).2.1
        (ids.foldl (hCenterStep st flag) ([], [], [], [])).1).1 := by
      apply hclosed.2 he.id hid_vh orig horig
      rw [← hlinkeq]
      exact hv
    rw [hCollectNodes_ids st flag
      (ids.foldl (hCenterStep st flag) ([], [], [], [])).2.2.1 hwf.nodes_id _
      hclosed.1]
    exact hv_vn

/-- Witness for the universal part of `C2_hypergraph_expansion` at the
`{A,B,C}` / `{C,D}` store. -/
theorem C2_witness :
    (hgStore = HypergraphStorage.init [recA, recB, recC, recD]
      [he1rec, he2rec] nameOf nameOf membersOf) ∧
    ([get_model_id recA] ≠ ([] : List String)) ∧
    (∀ he ∈ (hgStore.get_sample [get_model_id recA] 1 false 0).hyperedges,
      ∀ v ∈ he.linked_nodes,
        v ∈ (hgStore.get_sample [get_model_id recA] 1 false 0).nodes.map
          NodeEntry.id) :=
  ⟨rfl, by decide,
   C2_hypergraph_expansion.1 [recA, recB, recC, recD] [he1rec, he2rec]
     nameOf nameOf membersOf hgStore rfl [get_model_id recA] 1 false 0
     (by decide)⟩

/-- A record whose derived ID exists in no fixture store. -/
def recBad : Record := [("name", "Z")]

/-- **C4**: evaluation of `get_sample_from_data` on a raw record whose
derived ID is not in the store.  For the Graph Store the record is skipped
(warning logged) and the remaining resolvable record still produces the
sample.  For the Hypergraph Store, the code contradicts the claim: the
warning line reads `self.node_label_extractor`, an attribute `__init__`
never assigns (it stores `node_name_extractor`), so the lookup raises
`AttributeError` instead of skipping — modelled as `Except.error`. -/
theorem C4_unresolvable_lookup :
    (pathStore.get_sample_from_data [recBad, recA] [] 1 false 0 =
      pathStore.get_sample [get_model_id recA] 1 false 0) ∧
    (HypergraphStorage.get_sample_from_data hgStore [recBad] [] 2 false 0 =
      Except.error
        "AttributeError: HypergraphStorage has no attribute node_label_extractor") := by
  refine ⟨by decide, by rfl⟩

/-! ## List Store (`src/ontosight/core/storage/list.py`)

Items have the same stored shape as nodes (`{id, data: {label, raw}}`), so
`NodeEntry` is reused for them. -/

structure ListStorage where
  items : List (String × NodeEntry)
  item_order : List String
  name_to_id : List (String × String)
deriving Repr, DecidableEq

def lInitStep (item_name_extractor : Record → String)
    (st : ListStorage) (item : Record) : ListStorage :=
  let label := item_name_extractor item
  let item_id := get_model_id item
  { st with
    name_to_id := dinsert label item_id st.name_to_id
    items := dinsert item_id ⟨item_id, label, item, none⟩ st.items
    item_order := st.item_order ++ [item_id] }

/-- `ListStorage.__init__`. -/
def ListStorage.init (item_list : List Record)
    (item_name_extractor : Record → String) : ListStorage :=
  item_list.foldl (lInitStep item_name_extractor) ⟨[], [], []⟩

/-- The result shape of `ListStorage.get_sample`. -/
structure LSample where
  items : List NodeEntry
deriving Repr, DecidableEq

/-- `ListStorage.get_sample`: with no centers, the first (up to) 50 items
in insertion order; otherwise exactly the supplied IDs that exist, in the
given order; `hops` is ignored.  The highlight pass marks items whose ID
is in the supplied center set. -/
def ListStorage.get_sample (st : ListStorage) (center_ids : List String)
    (hops : Nat) (highlight_center : Bool) : LSample :=
  let items_sample := if center_ids.isEmpty then
      (st.item_order.take (min 50 st.item_order.length)).filterMap
        (fun item_id => dlookup item_id st.items)
    else
      center_ids.filterMap (fun item_id => dlookup item_id st.items)
  if highlight_center then
    ⟨items_sample.map (fun it =>
      if it.id ∈ center_ids then { it with highlighted := some true } else it)⟩
  else ⟨items_sample⟩

/-- `ListStorage.get_all_items_paginated` (items are returned as stored,
with no root-level label/type decoration). -/
def ListStorage.get_all_items_paginated (st : ListStorage)
    (page page_size : Nat) : PageResult NodeEntry :=
  let item_objects := st.item_order.filterMap (fun item_id => dlookup item_id st.items)
  ⟨pageSlice item_objects page page_size, page, page_size,
   item_objects.length,
   decide (page * page_size + page_size < item_objects.length)⟩

/-- `ListStorage.get_sample_from_data`: resolve raw records to IDs, skip
(with a warning) the unresolved ones, delegate to `get_sample`. -/
def ListStorage.get_sample_from_data (st : ListStorage)
    (data_list : List Record) (hops : Nat) (highlight_center : Bool) : LSample :=
  let ids := data_list.filterMap (fun item =>
    let item_id := get_model_id item
    if (dlookup item_id st.items).isSome then some item_id else none)
  st.get_sample ids hops highlight_center

/-! ## Node Store (`src/ontosight/core/storage/node.py`) -/

structure NodeStorage where
  nodes : List (String × NodeEntry)
deriving Repr, DecidableEq

def nInitStep (node_id_extractor node_label_extractor : Record → String)
    (st : NodeStorage) (node : Record) : NodeStorage :=
  let node_id := node_id_extractor node
  let label := node_label_extractor node
  ⟨dinsert node_id ⟨node_id, label, node, none⟩ st.nodes⟩

/-- `NodeStorage.__init__`; when no label extractor is supplied the
default formats the caller-supplied ID. -/
def NodeStorage.init (node_list : List Record)
    (node_id_extractor : Record → String)
    (node_label_extractor : Option (Record → String)) : NodeStorage :=
  let nle := node_label_extractor.getD
    (fun n => default_label_formatter (node_id_extractor n))
  node_list.foldl (nInitStep node_id_extractor nle) ⟨[]⟩

/-- The result shape of `NodeStorage.get_sample`. -/
structure NSample where
  nodes : List NodeEntry
deriving Repr, DecidableEq

/-- `random.sample(pool, k)`: `k` distinct elements drawn from `pool`
without replacement; the draw is modelled as a seed-selected rotation of
the pool. -/
def pySample (seed : Nat) (pool : List String) (k : Nat) : List String :=
  (pool.rotate (seed % (pool.length + 1))).take k

/-- The id list assembled by `NodeStorage.get_sample`: the valid distinct
subset of `center_ids`, padded by random sampling without replacement from
the remaining pool until `n_nodes` is reached or the pool is exhausted. -/
def nResultIds (st : NodeStorage) (center_ids : List String)
    (n_nodes : Nat) (seed : Nat) : List String :=
  let all_node_ids := st.nodes.map (·.1)
  let result_ids := (sdedup center_ids).filter
    (fun nid => (dlookup nid st.nodes).isSome)
  if result_ids.length < n_nodes then
    let remaining_ids := all_node_ids.filter (fun nid => nid ∉ result_ids)
    if remaining_ids.isEmpty then result_ids
    else result_ids ++
      pySample seed remaining_ids
        (min remaining_ids.length (n_nodes - result_ids.length))
  else result_ids

/-- `NodeStorage.get_sample`. -/
def NodeStorage.get_sample (st : NodeStorage) (center_ids : List String)
    (n_nodes : Nat) (highlight_center : Bool) (seed : Nat) : NSample :=
  ⟨(nResultIds st center_ids n_nodes seed).filterMap (fun node_id =>
    (dlookup node_id st.nodes).map (fun e =>
      if highlight_center ∧ node_id ∈ center_ids
      then { e with highlighted := some true } else e))⟩

/-- `NodeStorage.get_sample_from_data`. -/
def NodeStorage.get_sample_from_data (st : NodeStorage)
    (node_list : List Record) (node_id_extractor : Record → String)
    (highlight_center : Bool) (seed : Nat) : NSample :=
  st.get_sample (node_list.map node_id_extractor) 10 highlight_center seed

/-- `NodeStorage.get_all_nodes_paginated`. -/
def NodeStorage.get_all_nodes_paginated (st : NodeStorage)
    (page page_size : Nat) : PageResult (PageItem NodeEntry) :=
  let node_items := st.nodes.map (·.2)
  ⟨(pageSlice node_items page page_size).map (fun n => ⟨n, n.label, "node"⟩),
   page, page_size, node_items.length,
   decide (page * page_size + page_size < node_items.length)⟩

/-! ## C9: Node Store sample-size machinery -/

theorem dlookup_isSome_of_key {d : List (String × α)} {x : String}
    (h : x ∈ d.map (·.1)) : (dlookup x d).isSome := by
  induction d with
  | nil => simp at h
  | cons p rest ih =>
    rw [List.map_cons, List.mem_cons] at h
    rcases h with h1 | h1
    · subst h1
      simp [dlookup]
    · by_cases hp : p.1 = x
      · simp [dlookup, hp]
      · simp only [dlookup, if_neg hp]
        exact ih h1

theorem dinsert_keys (k : String) (v : α) (d : List (String × α)) :
    (dinsert k v d).map (·.1) =
      if k ∈ d.map (·.1) then d.map (·.1) else d.map (·.1) ++ [k] := by
  induction d with
  | nil => simp [dinsert]
  | cons p rest ih =>
    by_cases hp : p.1 = k
    · simp [dinsert, hp]
    · have hne : ¬(k = p.1) := fun hc => hp hc.symm
      by_cases hk : k ∈ rest.map (·.1)
      · simp [dinsert, hp, ih, hk, hne]
      · simp [dinsert, hp, ih, hk, hne]

theorem dinsert_keys_nodup (k : String) (v : α) (d : List (String × α))
    (h : (d.map (·.1)).Nodup) : ((dinsert k v d).map (·.1)).Nodup := by
  rw [dinsert_keys]
  by_cases hk : k ∈ d.map (·.1)
  · simpa [hk] using h
  · simp only [hk, if_false, List.nodup_append, List.nodup_singleton]
    exact ⟨h, True.intro, by simpa [List.disjoint_singleton] using hk⟩

theorem sdedup_nodup (l : List String) : (sdedup l).Nodup := by
  unfold sdedup
  refine foldl_invariant (fun (s : List String) => s.Nodup) _ l [] (by simp) ?_
  intro acc x _ h
  exact sinsert_nodup x acc h

theorem sdedup_mem (l : List String) (x : String) : x ∈ sdedup l ↔ x ∈ l := by
  unfold sdedup
  rw [sfold_mem]
  simp

theorem filterMap_length_of_isSome {α β : Type _} (f : α → Option β) :
    ∀ (l : List α), (∀ x ∈ l, (f x).isSome) →
      (l.filterMap f).length = l.length := by
  intro l
  induction l with
  | nil => intro _; simp
  | cons x xs ih =>
    intro hall
    cases hf : f x with
    | none =>
      have := hall x (by simp)
      rw [hf] at this
      simp at this
    | some b =>
      rw [List.filterMap_cons, hf]
      simp only [List.length_cons]
      rw [ih (fun y hy => hall y (List.mem_cons_of_mem _ hy))]

/-- Two duplicate-free lists with the same members have the same length. -/
theorem length_eq_of_nodup_mem_iff {l1 l2 : List String} (h1 : l1.Nodup)
    (h2 : l2.Nodup) (h : ∀ x, x ∈ l1 ↔ x ∈ l2) : l1.length = l2.length :=
  ((h1.subperm (fun x hx => (h x).mp hx)).antisymm
    (h2.subperm (fun x hx => (h x).mpr hx))).length_eq

theorem pySample_length (seed : Nat) (pool : List String) (k : Nat) :
    (pySample seed pool k).length = min k pool.length := by
  unfold pySample
  rw [List.length_take, List.length_rotate]

theorem pySample_sub (seed : Nat) (pool : List String) (k : Nat) :
    ∀ x ∈ pySample seed pool k, x ∈ pool := by
  intro x hx
  unfold pySample at hx
  exact List.mem_rotate.mp (List.mem_of_mem_take hx)

theorem mem_keys_of_dlookup_isSome {d : List (String × α)} {x : String}
    (h : (dlookup x d).isSome) : x ∈ d.map (·.1) := by
  cases hl : dlookup x d with
  | none => rw [hl] at h; simp at h
  | some v => exact List.mem_map.mpr ⟨(x, v), dlookup_mem hl, rfl⟩

/-- Mapping `NodeEntry.id` over an id-preserving per-key decoration of a
list of looked-up entries gives back the key list. -/
theorem filterMap_decorate_ids (d : List (String × NodeEntry))
    (hwf : ∀ p ∈ d, p.2.id = p.1) (g : String → NodeEntry → NodeEntry)
    (hg : ∀ nid e, (g nid e).id = e.id) :
    ∀ (vn : List String), (∀ x ∈ vn, (dlookup x d).isSome) →
      (vn.filterMap (fun nid => (dlookup nid d).map (g nid))).map
        NodeEntry.id = vn := by
  intro vn
  induction vn with
  | nil => intro _; simp
  | cons x xs ih =>
    intro hall
    cases hl : dlookup x d with
    | none =>
      have := hall x (by simp)
      rw [hl] at this
      simp at this
    | some e =>
      rw [List.filterMap_cons, hl]
      simp only [Option.map_some', List.map_cons]
      rw [ih (fun y hy => hall y (List.mem_cons_of_mem _ hy))]
      rw [hg x e, hwf (x, e) (dlookup_mem hl)]

theorem ninit_inv (node_list : List Record) (idex : Record → String)
    (lex : Option (Record → String)) :
    (∀ p ∈ (NodeStorage.init node_list idex lex).nodes,
      p.2.id = p.1 ∧ p.2.highlighted = none) ∧
    ((NodeStorage.init node_list idex lex).nodes.map (·.1)).Nodup := by
  unfold NodeStorage.init
  refine foldl_invariant (fun (st : NodeStorage) =>
    (∀ p ∈ st.nodes, p.2.id = p.1 ∧ p.2.highlighted = none) ∧
    (st.nodes.map (·.1)).Nodup) _ node_list (⟨[]⟩ : NodeStorage)
    ⟨?_, ?_⟩ ?_
  · intro p hp; simp at hp
  · simp
  · rintro acc node _ ⟨ha, hb⟩
    constructor
    · intro p hp
      rcases dinsert_mem hp with h | h
      · subst h; exact ⟨rfl, rfl⟩
      · exact ha p h
    · exact dinsert_keys_nodup _ _ _ hb

theorem decorate_isSome (d : List (String × NodeEntry))
    (g : String → NodeEntry → NodeEntry) (x : String)
    (h : (dlookup x d).isSome) : ((dlookup x d).map (g x)).isSome := by
  cases hl : dlookup x d with
  | none => rw [hl] at h; simp at h
  | some e => rfl

/-- **C9**: For the Node-only Store, `get_sample(center_ids, n_nodes,
highlight_center)` returns a node set that includes every supplied center
ID that exists in the store, padded by sampling without replacement from
the remaining nodes until `n_nodes` is reached or the pool is exhausted;
the number of returned nodes equals
`max (number of distinct valid centers) (min n_nodes total_nodes)` for
every outcome (`seed`) of the random sampling. -/
theorem C9_node_sample_count (node_list : List Record)
    (idex : Record → String) (lex : Option (Record → String))
    (st : NodeStorage) (hst : st = NodeStorage.init node_list idex lex)
    (ids : List String) (n : Nat) (flag : Bool) (seed : Nat) :
    (st.get_sample ids n flag seed).nodes.length =
      max ((sdedup ids).filter
        (fun i => (dlookup i st.nodes).isSome)).length
        (min n st.nodes.length) ∧
    (∀ i ∈ ids, (dlookup i st.nodes).isSome →
      i ∈ (st.get_sample ids n flag seed).nodes.map NodeEntry.id) := by
  obtain ⟨hids_wf, hkeys_nodup⟩ := hst ▸ ninit_inv node_list idex lex
  have hN : (st.nodes.map (·.1)).length = st.nodes.length := by
    rw [List.length_map]
  set V := (sdedup ids).filter (fun i => (dlookup i st.nodes).isSome) with hV
  have hVnodup : V.Nodup := (sdedup_nodup ids).filter _
  have hVsub : ∀ x ∈ V, x ∈ st.nodes.map (·.1) := by
    intro x hx
    exact mem_keys_of_dlookup_isSome (by simpa using (List.mem_filter.mp hx).2)
  have hVle : V.length ≤ st.nodes.length := by
    rw [← hN]
    exact (hVnodup.subperm hVsub).length_le
  set R := (st.nodes.map (·.1)).filter (fun nid => nid ∉ V) with hR
  have hRlen : R.length = st.nodes.length - V.length := by
    have hpartition := (st.nodes.map (·.1)).filter_append_perm
      (fun nid => decide (nid ∈ V))
    have hinlen : ((st.nodes.map (·.1)).filter
        (fun nid => decide (nid ∈ V))).length = V.length := by
      refine length_eq_of_nodup_mem_iff (hkeys_nodup.filter _) hVnodup ?_
      intro x
      rw [List.mem_filter]
      constructor
      · rintro ⟨_, h⟩; simpa using h
      · intro h; exact ⟨hVsub x h, by simpa using h⟩
    have hsum := hpartition.length_eq
    rw [List.length_append, hinlen] at hsum
    have hRdef : R = (st.nodes.map (·.1)).filter
        (fun nid => !decide (nid ∈ V)) := by
      rw [hR]
      congr 1
      funext nid
      simp [decide_not]
    rw [hRdef, ← hN]
    omega
  have hRsub : ∀ x ∈ R, (dlookup x st.nodes).isSome := by
    intro x hx
    exact dlookup_isSome_of_key (List.mem_filter.mp hx).1
  have hVall : ∀ x ∈ V, (dlookup x st.nodes).isSome := by
    intro x hx
    simpa using (List.mem_filter.mp hx).2
  have main : ∀ (res : List String), (∀ x ∈ res, (dlookup x st.nodes).isSome) →
      ((res.filterMap (fun node_id => (dlookup node_id st.nodes).map (fun e =>
        if flag ∧ node_id ∈ ids then { e with highlighted := some true }
        else e))).map NodeEntry.id = res) := by
    intro res hres
    exact filterMap_decorate_ids st.nodes (fun p hp => (hids_wf p hp).1)
      (fun nid e => if flag ∧ nid ∈ ids
        then { e with highlighted := some true } else e)
      (fun nid e => by by_cases h : flag = true ∧ nid ∈ ids <;> simp [h]) res hres
  have mainlen : ∀ (res : List String),
      (∀ x ∈ res, (dlookup x st.nodes).isSome) →
      ((res.filterMap (fun node_id => (dlookup node_id st.nodes).map (fun e =>
        if flag ∧ node_id ∈ ids then { e with highlighted := some true }
        else e))).length = res.length) := by
    intro res hres
    exact filterMap_length_of_isSome _ res
      (fun x hx => decorate_isSome st.nodes
        (fun nid e => if flag ∧ nid ∈ ids
          then { e with highlighted := some true } else e) x (hres x hx))
  by_cases hcase : V.length < n
  · by_cases hRempty : R.isEmpty
    · have hReq : R = [] := by simpa [List.isEmpty_iff] using hRempty
      have hNeq : st.nodes.length = V.length := by
        rw [hReq] at hRlen
        simp at hRlen
        omega
      have hsample : st.get_sample ids n flag seed = ⟨V.filterMap
          (fun node_id => (dlookup node_id st.nodes).map (fun e =>
            if flag ∧ node_id ∈ ids then { e with highlighted := some true }
            else e))⟩ := by
        rw [NodeStorage.get_sample, nResultIds]
        simp only [← hV, ← hR, hcase, if_true, hRempty]
      rw [hsample]
      constructor
      · show (List.filterMap _ V).length = _
        rw [mainlen V hVall]
        omega
      · intro i hi hsome
        have hiV : i ∈ V := List.mem_filter.mpr
          ⟨(sdedup_mem ids i).mpr hi, by simpa using hsome⟩
        show i ∈ (List.filterMap _ V).map NodeEntry.id
        rw [main V hVall]
        exact hiV
    · have hsample : st.get_sample ids n flag seed = ⟨(V ++ pySample seed R
          (min R.length (n - V.length))).filterMap
          (fun node_id => (dlookup node_id st.nodes).map (fun e =>
            if flag ∧ node_id ∈ ids then { e with highlighted := some true }
            else e))⟩ := by
        rw [NodeStorage.get_sample, nResultIds]
        simp only [← hV, ← hR, hcase, if_true, hRempty, Bool.false_eq_true,
          if_false]
      have hall : ∀ x ∈ V ++ pySample seed R (min R.length (n - V.length)),
          (dlookup x st.nodes).isSome := by
        intro x hx
        rcases List.mem_append.mp hx with h | h
        · exact hVall x h
        · exact hRsub x (pySample_sub seed R _ x h)
      rw [hsample]
      constructor
      · show (List.filterMap _ _).length = _
        rw [mainlen _ hall, List.length_append, pySample_length]
        have hRne : R.length ≠ 0 := by
          intro h0
          rw [List.isEmpty_iff] at hRempty
          exact hRempty (List.eq_nil_of_length_eq_zero h0)
        omega
      · intro i hi hsome
        have hiV : i ∈ V := List.mem_filter.mpr
          ⟨(sdedup_mem ids i).mpr hi, by simpa using hsome⟩
        show i ∈ (List.filterMap _ _).map NodeEntry.id
        rw [main _ hall]
        exact List.mem_append.mpr (Or.inl hiV)
  · have hsample : st.get_sample ids n flag seed = ⟨V.filterMap
        (fun node_id => (dlookup node_id st.nodes).map (fun e =>
          if flag ∧ node_id ∈ ids then { e with highlighted := some true }
          else e))⟩ := by
      rw [NodeStorage.get_sample, nResultIds]
      simp only [← hV, hcase, if_false]
    rw [hsample]
    constructor
    · show (List.filterMap _ V).length = _
      rw [mainlen V hVall]
      omega
    · intro i hi hsome
      have hiV : i ∈ V := List.mem_filter.mpr
        ⟨(sdedup_mem ids i).mpr hi, by simpa using hsome⟩
      show i ∈ (List.filterMap _ V).map NodeEntry.id
      rw [main V hVall]
      exact hiV

/-! ## C3: re-query determinism -/

theorem hLayoutStep_fold_pairs (seed : Nat) (hub : String) :
    ∀ (ns : List String) (acc : List LayoutEdge × Nat),
      ((ns.foldl (hLayoutStep seed hub) acc).1).map (fun e => (e.source, e.target)) =
        acc.1.map (fun e => (e.source, e.target)) ++
          (ns.filter (fun nid => nid ≠ hub)).map (fun nid => (hub, nid)) := by
  intro ns
  induction ns with
  | nil => intro acc; simp
  | cons y ys ih =>
    intro acc
    by_cases hy : y = hub
    · have hred : hLayoutStep seed hub acc y = acc := by
        simp [hLayoutStep, hy]
      rw [List.foldl_cons, hred, ih]
      simp [hy]
    · have hred : hLayoutStep seed hub acc y =
          (acc.1 ++ [⟨get_random_id (seed + acc.2), hub, y⟩], acc.2 + 1) := by
        simp [hLayoutStep, hy]
      rw [List.foldl_cons, hred, ih]
      simp [hy]

theorem hLayoutEdges_pairs_eq (st : HypergraphStorage) :
    ∀ (hes : List HyperedgeEntry) (s1 s2 : Nat)
      (acc1 acc2 : List LayoutEdge × Nat),
      acc1.1.map (fun e => (e.source, e.target)) =
        acc2.1.map (fun e => (e.source, e.target)) →
      ((hes.foldl (hLayoutHeStep st s1) acc1).1).map (fun e => (e.source, e.target)) =
        ((hes.foldl (hLayoutHeStep st s2) acc2).1).map (fun e => (e.source, e.target)) := by
  intro hes
  induction hes with
  | nil => intro s1 s2 acc1 acc2 h; exact h
  | cons he rest ih =>
    intro s1 s2 acc1 acc2 h
    rw [List.foldl_cons, List.foldl_cons]
    by_cases hempty : he.linked_nodes.isEmpty
    · have h1 : hLayoutHeStep st s1 acc1 he = acc1 := by
        simp [hLayoutHeStep, hempty]
      have h2 : hLayoutHeStep st s2 acc2 he = acc2 := by
        simp [hLayoutHeStep, hempty]
      rw [h1, h2]
      exact ih s1 s2 acc1 acc2 h
    · have h1 : hLayoutHeStep st s1 acc1 he =
          he.linked_nodes.foldl
            (hLayoutStep s1 (hMinDegHub st he.linked_nodes)) acc1 := by
        simp [hLayoutHeStep, hempty]
      have h2 : hLayoutHeStep st s2 acc2 he =
          he.linked_nodes.foldl
            (hLayoutStep s2 (hMinDegHub st he.linked_nodes)) acc2 := by
        simp [hLayoutHeStep, hempty]
      rw [h1, h2]
      refine ih s1 s2 _ _ ?_
      rw [hLayoutStep_fold_pairs, hLayoutStep_fold_pairs, h]

/-- **C3 (amended)**: re-querying `get_sample` with identical non-empty
`center_ids` against an unmodified store is deterministic for the Graph
Store (the RNG is consulted only for default center selection); for the
Hypergraph Store it returns identical node and hyperedge lists and
identical layout-edge (source, target) endpoints, while the layout-edge
IDs are freshly drawn from the RNG on every call; the List Store's
`get_sample` consumes no randomness at all; the Node Store's random fill
may differ between calls. -/
theorem C3_amended_idempotent :
    (∀ (st : GraphStorage) (ids : List String) (hops : Nat) (flag : Bool)
       (s1 s2 : Nat), ids ≠ [] →
       st.get_sample ids hops flag s1 = st.get_sample ids hops flag s2) ∧
    (∀ (st : HypergraphStorage) (ids : List String) (hops : Nat) (flag : Bool)
       (s1 s2 : Nat), ids ≠ [] →
       (st.get_sample ids hops flag s1).nodes =
         (st.get_sample ids hops flag s2).nodes ∧
       (st.get_sample ids hops flag s1).hyperedges =
         (st.get_sample ids hops flag s2).hyperedges ∧
       (st.get_sample ids hops flag s1).edges.map (fun e => (e.source, e.target)) =
         (st.get_sample ids hops flag s2).edges.map
           (fun e => (e.source, e.target))) := by
  constructor
  · intro st ids hops flag s1 s2 hids
    rw [get_sample_eq st ids hops flag s1 hids,
      get_sample_eq st ids hops flag s2 hids]
  · intro st ids hops flag s1 s2 hids
    rw [h_get_sample_eq st ids hops flag s1 hids,
      h_get_sample_eq st ids hops flag s2 hids]
    by_cases hempty : (ids.foldl (hCenterStep st flag) ([], [], [], [])).1.isEmpty
    · rw [if_pos hempty, if_pos hempty]
      exact ⟨rfl, rfl, rfl⟩
    · rw [if_neg hempty, if_neg hempty]
      refine ⟨rfl, rfl, ?_⟩
      exact hLayoutEdges_pairs_eq st _ s1 s2 ([], 0) ([], 0) rfl

/-- Node Store records carrying caller-supplied IDs `y1..y5`. -/
def nrecY1 : Record := [("uid", "y1")]

def nrecY2 : Record := [("uid", "y2")]

def nrecY3 : Record := [("uid", "y3")]

def nrecY4 : Record := [("uid", "y4")]

def nrecY5 : Record := [("uid", "y5")]

def uidOf (r : Record) : String := (dlookup "uid" r).getD ""

def ndStore5 : NodeStorage :=
  NodeStorage.init [nrecY1, nrecY2, nrecY3, nrecY4, nrecY5] uidOf none

/-- **C3 counterexample**: two calls with identical non-empty `center_ids`
against the unmodified `{A,B,C}`/`{C,D}` hypergraph store (consecutive RNG
states 0 and 1) return different results — same nodes and hyperedges but
layout edges with different freshly generated IDs — and the Node Store's
random fill also differs across RNG states even with non-empty centers. -/
theorem C3_counterexample :
    (hgStore.get_sample [get_model_id recA] 1 false 0 ≠
      hgStore.get_sample [get_model_id recA] 1 false 1) ∧
    ((hgStore.get_sample [get_model_id recA] 1 false 0).nodes =
      (hgStore.get_sample [get_model_id recA] 1 false 1).nodes) ∧
    ((hgStore.get_sample [get_model_id recA] 1 false 0).hyperedges =
      (hgStore.get_sample [get_model_id recA] 1 false 1).hyperedges) ∧
    (ndStore5.get_sample ["y1"] 2 false 0 ≠ ndStore5.get_sample ["y1"] 2 false 1) := by
  refine ⟨by decide, by decide, by decide, by decide⟩

/-- Witness for `C3_amended_idempotent` at the path graph and the
concrete hypergraph store. -/
theorem C3_witness :
    ([get_model_id recA] ≠ ([] : List String)) ∧
    (pathStore.get_sample [get_model_id recA] 2 true 0 =
      pathStore.get_sample [get_model_id recA] 2 true 7) ∧
    ((hgStore.get_sample [get_model_id recA] 1 false 0).nodes =
       (hgStore.get_sample [get_model_id recA] 1 false 1).nodes ∧
     (hgStore.get_sample [get_model_id recA] 1 false 0).hyperedges =
       (hgStore.get_sample [get_model_id recA] 1 false 1).hyperedges ∧
     (hgStore.get_sample [get_model_id recA] 1 false 0).edges.map
         (fun e => (e.source, e.target)) =
       (hgStore.get_sample [get_model_id recA] 1 false 1).edges.map
         (fun e => (e.source, e.target))) :=
  ⟨by decide,
   C3_amended_idempotent.1 pathStore [get_model_id recA] 2 true 0 7 (by decide),
   C3_amended_idempotent.2 hgStore [get_model_id recA] 1 false 0 1 (by decide)⟩

/-- Spec §8 scenario 4: a Node Store with three nodes `x1, x2, x3`. -/
def nrecX1 : Record := [("uid", "x1")]

def nrecX2 : Record := [("uid", "x2")]

def nrecX3 : Record := [("uid", "x3")]

def ndStore : NodeStorage :=
  NodeStorage.init [nrecX1, nrecX2, nrecX3] uidOf none

/-- Witness for `C9_node_sample_count`: 3 stored nodes,
`get_sample(["x1"], n_nodes=10)` returns all 3 (pool exhausted). -/
theorem C9_witness :
    (ndStore = NodeStorage.init [nrecX1, nrecX2, nrecX3] uidOf none) ∧
    ((ndStore.get_sample ["x1"] 10 true 0).nodes.length =
      max ((sdedup ["x1"]).filter
        (fun i => (dlookup i ndStore.nodes).isSome)).length
        (min 10 ndStore.nodes.length) ∧
     (∀ i ∈ ["x1"], (dlookup i ndStore.nodes).isSome →
       i ∈ (ndStore.get_sample ["x1"] 10 true 0).nodes.map NodeEntry.id)) :=
  ⟨rfl, C9_node_sample_count [nrecX1, nrecX2, nrecX3] uidOf none ndStore rfl
    ["x1"] 10 true 0⟩

/-! ## C6: highlight correctness machinery -/

/-- Characterization of the id-preserving highlight decoration applied by
every store's result collection. -/
theorem decorate_spec (d : List (String × NodeEntry)) (flag : Bool)
    (cn : List String)
    (hwf : ∀ p ∈ d, p.2.id = p.1 ∧ p.2.highlighted = none) :
    ∀ (vn : List String),
      ∀ n ∈ vn.filterMap (fun nid => (dlookup nid d).map (fun e =>
          if flag ∧ nid ∈ cn then { e with highlighted := some true } else e)),
        n.id ∈ vn ∧ (dlookup n.id d).isSome ∧
        n.highlighted = (if flag = true ∧ n.id ∈ cn then some true else none) := by
  intro vn n hn
  rcases List.mem_filterMap.mp hn with ⟨nid, hvn, hf⟩
  cases hl : dlookup nid d with
  | none => rw [hl] at hf; simp at hf
  | some e =>
    rw [hl] at hf
    simp only [Option.map_some', Option.some.injEq] at hf
    have hid : e.id = nid := (hwf (nid, e) (dlookup_mem hl)).1
    have hhl : e.highlighted = none := (hwf (nid, e) (dlookup_mem hl)).2
    by_cases hc : flag = true ∧ nid ∈ cn
    · rw [if_pos hc] at hf
      subst hf
      refine ⟨by simpa [hid] using hvn, by simp [hid, hl], ?_⟩
      show some true = _
      simp only [hid]
      rw [if_pos hc]
    · rw [if_neg hc] at hf
      subst hf
      refine ⟨by simpa [hid] using hvn, by simp [hid, hl], ?_⟩
      rw [hhl, hid, if_neg hc]

/-- Characterization of the hypergraph center scan's center-node and
center-hyperedge sets (only tracked when `highlight_center` is true). -/
theorem hCenterScan_centers (st : HypergraphStorage) (flag : Bool) :
    ∀ (ids : List String) (vn vh cn ch : List String),
      (∀ x, x ∈ (ids.foldl (hCenterStep st flag) (vn, vh, cn, ch)).2.2.1 ↔
        x ∈ cn ∨ (flag = true ∧ x ∈ ids ∧ (dlookup x st.nodes).isSome)) ∧
      (∀ x, x ∈ (ids.foldl (hCenterStep st flag) (vn, vh, cn, ch)).2.2.2 ↔
        x ∈ ch ∨ (flag = true ∧ x ∈ ids ∧ dlookup x st.nodes = none ∧
          (dlookup x st.hyperedges).isSome)) := by
  intro ids
  induction ids with
  | nil => intro vn vh cn ch; simp
  | cons i rest ih =>
    intro vn vh cn ch
    by_cases hn : (dlookup i st.nodes).isSome
    · have hred : hCenterStep st flag (vn, vh, cn, ch) i =
          (sinsert i vn, vh, if flag then sinsert i cn else cn, ch) := by
        simp [hCenterStep, hn]
      rw [List.foldl_cons, hred]
      obtain ⟨ihc, ihe⟩ := ih (sinsert i vn) vh (if flag then sinsert i cn else cn) ch
      refine ⟨fun x => ?_, fun x => ?_⟩
      · rw [ihc]
        have hbs : x = i → (dlookup x st.nodes).isSome = true := fun h => by
          rw [h]; exact hn
        cases flag with
        | false => simp
        | true =>
          rw [if_pos rfl, sinsert_mem]
          simp only [List.mem_cons]
          tauto
      · rw [ihe]
        have hbn : ¬(x = i ∧ dlookup x st.nodes = none) := by
          rintro ⟨rfl, hN⟩
          rw [hN] at hn
          simp at hn
        simp only [List.mem_cons]
        tauto
    · have hn' : dlookup i st.nodes = none := by
        cases h : dlookup i st.nodes with
        | none => rfl
        | some v => rw [h] at hn; simp at hn
      cases he : dlookup i st.hyperedges with
      | some hedge =>
        have hred : hCenterStep st flag (vn, vh, cn, ch) i =
            (hedge.linked_nodes.foldl (fun s nid => sinsert nid s) vn,
             sinsert i vh, cn, if flag then sinsert i ch else ch) := by
          simp [hCenterStep, hn', he]
        rw [List.foldl_cons, hred]
        obtain ⟨ihc, ihe⟩ := ih
          (hedge.linked_nodes.foldl (fun s nid => sinsert nid s) vn)
          (sinsert i vh) cn (if flag then sinsert i ch else ch)
        refine ⟨fun x => ?_, fun x => ?_⟩
        · rw [ihc]
          have hbs : ¬(x = i ∧ (dlookup x st.nodes).isSome = true) := by
            rintro ⟨rfl, hs⟩
            rw [hn'] at hs
            simp at hs
          simp only [List.mem_cons]
          tauto
        · rw [ihe]
          have hbne : x = i →
              dlookup x st.nodes = none ∧ (dlookup x st.hyperedges).isSome = true :=
            fun h => by rw [h, hn', he]; exact ⟨rfl, rfl⟩
          cases flag with
          | false => simp
          | true =>
            rw [if_pos rfl, sinsert_mem]
            simp only [List.mem_cons]
            tauto
      | none =>
        have hred : hCenterStep st flag (vn, vh, cn, ch) i = (vn, vh, cn, ch) := by
          simp [hCenterStep, hn', he]
        rw [List.foldl_cons, hred]
        obtain ⟨ihc, ihe⟩ := ih vn vh cn ch
        refine ⟨fun x => ?_, fun x => ?_⟩
        · rw [ihc]
          have hbs : ¬(x = i ∧ (dlookup x st.nodes).isSome = true) := by
            rintro ⟨rfl, hs⟩
            rw [hn'] at hs
            simp at hs
          simp only [List.mem_cons]
          tauto
        · rw [ihe]
          have hbe : ¬(x = i ∧ (dlookup x st.hyperedges).isSome = true) := by
            rintro ⟨rfl, hs⟩
            rw [he] at hs
            simp at hs
          simp only [List.mem_cons]
          tauto

theorem linit_inv (item_list : List Record) (iex : Record → String) :
    ∀ p ∈ (ListStorage.init item_list iex).items,
      p.2.id = p.1 ∧ p.2.highlighted = none := by
  unfold ListStorage.init
  refine foldl_invariant (fun (st : ListStorage) =>
    ∀ p ∈ st.items, p.2.id = p.1 ∧ p.2.highlighted = none)
    (lInitStep iex) item_list (⟨[], [], []⟩ : ListStorage) ?_ ?_
  · intro p hp; simp at hp
  · rintro acc item _ ha
    intro p hp
    rcases dinsert_mem hp with h | h
    · subst h; exact ⟨rfl, rfl⟩
    · exact ha p h

/-- **C6**: For every store's `get_sample` with `highlight_center = true`,
every returned element whose id is among the supplied (non-empty)
`center_ids` has `highlighted = true` injected, and every returned element
whose id is not among them carries no `highlighted` field; with
`highlight_center = false`, no returned element carries the field.  (The
two ID-disjointness hypotheses rule out a content-hash collision making
one ID both a node key and an edge/hyperedge key, which the spec's
ID-uniqueness invariant presumes; hypergraph layout edges carry no
`highlighted` field at all.) -/
theorem C6_highlight_correctness
    (gnl gel : List Record) (gnle gele : Record → String)
    (gnee : Record → String × String)
    (hnl hel : List Record) (hnne hene : Record → String)
    (hnie : Record → List String)
    (lil : List Record) (liex : Record → String)
    (nnl : List Record) (nidx : Record → String)
    (nlex : Option (Record → String))
    (gst : GraphStorage) (hgst : gst = GraphStorage.init gnl gel gnle gele gnee)
    (hst : HypergraphStorage)
    (hhst : hst = HypergraphStorage.init hnl hel hnne hene hnie)
    (lst : ListStorage) (hlst : lst = ListStorage.init lil liex)
    (nst : NodeStorage) (hnst : nst = NodeStorage.init nnl nidx nlex)
    (ids : List String) (hops n : Nat) (flag : Bool) (s1 s2 s3 : Nat)
    (hids : ids ≠ [])
    (hdg : ∀ p ∈ gst.edges, dlookup p.1 gst.nodes = none)
    (hdh : ∀ p ∈ hst.hyperedges, dlookup p.1 hst.nodes = none) :
    highlightSpec ids flag ((gst.get_sample ids hops flag s1).nodes.map
      (fun e => (e.id, e.highlighted))) ∧
    highlightSpec ids flag ((gst.get_sample ids hops flag s1).edges.map
      (fun e => (e.id, e.highlighted))) ∧
    highlightSpec ids flag ((hst.get_sample ids hops flag s2).nodes.map
      (fun e => (e.id, e.highlighted))) ∧
    highlightSpec ids flag ((hst.get_sample ids hops flag s2).hyperedges.map
      (fun e => (e.id, e.highlighted))) ∧
    highlightSpec ids flag ((lst.get_sample ids hops flag).items.map
      (fun e => (e.id, e.highlighted))) ∧
    highlightSpec ids flag ((nst.get_sample ids n flag s3).nodes.map
      (fun e => (e.id, e.highlighted))) := by
  have hgwf : GraphWF gst := hgst ▸ ginit_wf gnl gel gnle gele gnee
  have hhwf : HyperWF hst := hhst ▸ hinit_wf hnl hel hnne hene hnie
  have hlwf := hlst ▸ linit_inv lil liex
  have hnwf := (hnst ▸ ninit_inv nnl nidx nlex).1
  refine ⟨?_, ?_, ?_, ?_, ?_, ?_⟩
  · -- Graph Store: nodes
    intro p hp
    rw [get_sample_eq gst ids hops flag s1 hids] at hp
    by_cases hempty : (gCenterScan gst flag ids).1.isEmpty
    · rw [if_pos hempty] at hp
      simp at hp
    · rw [if_neg hempty] at hp
      rcases List.mem_map.mp hp with ⟨el, hel, rfl⟩
      obtain ⟨-, hsome, hhl⟩ := gCollectNodes_spec gst flag
        (gCenterScan gst flag ids).2.2.1 _ hgwf.nodes_id el hel
      obtain ⟨-, hcn, -⟩ := gCenterScan_go gst flag ids [] [] [] []
      have hcn' : ∀ x, x ∈ (gCenterScan gst flag ids).2.2.1 ↔
          (flag = true ∧ x ∈ ids ∧ (dlookup x gst.nodes).isSome) := by
        intro x
        rw [show (gCenterScan gst flag ids).2.2.1 =
          (ids.foldl (gCenterStep gst flag) ([], [], [], [])).2.2.1 from rfl, hcn x]
        simp
      constructor
      · intro hflag
        constructor
        · intro hin
          rw [hhl, if_pos ⟨hflag, (hcn' el.id).mpr ⟨hflag, hin, hsome⟩⟩]
        · intro hout
          rw [hhl, if_neg]
          rintro ⟨-, hmem⟩
          exact hout ((hcn' el.id).mp hmem).2.1
      · intro hflag
        rw [hhl, if_neg]
        rintro ⟨hc, -⟩
        rw [hflag] at hc
        cases hc
  · -- Graph Store: edges
    intro p hp
    rw [get_sample_eq gst ids hops flag s1 hids] at hp
    by_cases hempty : (gCenterScan gst flag ids).1.isEmpty
    · rw [if_pos hempty] at hp
      simp at hp
    · rw [if_neg hempty] at hp
      rcases List.mem_map.mp hp with ⟨el, hel, rfl⟩
      obtain ⟨hsome, hhl⟩ := gCollectEdges_spec gst flag
        (gCenterScan gst flag ids).2.2.2 _ hgwf.edges_wf el hel
      obtain ⟨-, -, hce⟩ := gCenterScan_go gst flag ids [] [] [] []
      have hce' : ∀ x, x ∈ (gCenterScan gst flag ids).2.2.2 ↔
          (flag = true ∧ x ∈ ids ∧ dlookup x gst.nodes = none ∧
            (dlookup x gst.edges).isSome) := by
        intro x
        rw [show (gCenterScan gst flag ids).2.2.2 =
          (ids.foldl (gCenterStep gst flag) ([], [], [], [])).2.2.2 from rfl, hce x]
        simp
      have hnone : dlookup el.id gst.nodes = none := by
        cases hl : dlookup el.id gst.edges with
        | none => rw [hl] at hsome; simp at hsome
        | some v => exact hdg (el.id, v) (dlookup_mem hl)
      constructor
      · intro hflag
        constructor
        · intro hin
          rw [hhl, if_pos ⟨hflag, (hce' el.id).mpr ⟨hflag, hin, hnone, hsome⟩⟩]
        · intro hout
          rw [hhl, if_neg]
          rintro ⟨-, hmem⟩
          exact hout ((hce' el.id).mp hmem).2.1
      · intro hflag
        rw [hhl, if_neg]
        rintro ⟨hc, -⟩
        rw [hflag] at hc
        cases hc
  · -- Hypergraph Store: nodes
    intro p hp
    rw [h_get_sample_eq hst ids hops flag s2 hids] at hp
    by_cases hempty : (ids.foldl (hCenterStep hst flag) ([], [], [], [])).1.isEmpty
    · rw [if_pos hempty] at hp
      simp at hp
    · rw [if_neg hempty] at hp
      rcases List.mem_map.mp hp with ⟨el, hel, rfl⟩
      unfold hCollectNodes at hel
      obtain ⟨-, hsome, hhl⟩ := decorate_spec hst.nodes flag
        (ids.foldl (hCenterStep hst flag) ([], [], [], [])).2.2.1
        hhwf.nodes_id _ el hel
      obtain ⟨hcn, -⟩ := hCenterScan_centers hst flag ids [] [] [] []
      have hcn' : ∀ x, x ∈ (ids.foldl (hCenterStep hst flag) ([], [], [], [])).2.2.1 ↔
          (flag = true ∧ x ∈ ids ∧ (dlookup x hst.nodes).isSome) := by
        intro x
        rw [hcn x]
        simp
      constructor
      · intro hflag
        constructor
        · intro hin
          rw [hhl, if_pos ⟨hflag, (hcn' el.id).mpr ⟨hflag, hin, hsome⟩⟩]
        · intro hout
          rw [hhl, if_neg]
          rintro ⟨-, hmem⟩
          exact hout ((hcn' el.id).mp hmem).2.1
      · intro hflag
        rw [hhl, if_neg]
        rintro ⟨hc, -⟩
        rw [hflag] at hc
        cases hc
  · -- Hypergraph Store: hyperedges
    intro p hp
    rw [h_get_sample_eq hst ids hops flag s2 hids] at hp
    by_cases hempty : (ids.foldl (hCenterStep hst flag) ([], [], [], [])).1.isEmpty
    · rw [if_pos hempty] at hp
      simp at hp
    · rw [if_neg hempty] at hp
      rcases List.mem_map.mp hp with ⟨el, hel, rfl⟩
      obtain ⟨-, ⟨orig, horig, -⟩, hhl⟩ := hCollectHes_spec hst flag
        (ids.foldl (hCenterStep hst flag) ([], [], [], [])).2.2.2 _
        (fun q hq => ⟨(hhwf.hes_wf q hq).1, (hhwf.hes_wf q hq).2.1⟩) el hel
      obtain ⟨-, hch⟩ := hCenterScan_centers hst flag ids [] [] [] []
      have hch' : ∀ x, x ∈ (ids.foldl (hCenterStep hst flag) ([], [], [], [])).2.2.2 ↔
          (flag = true ∧ x ∈ ids ∧ dlookup x hst.nodes = none ∧
            (dlookup x hst.hyperedges).isSome) := by
        intro x
        rw [hch x]
        simp
      have hsome : (dlookup el.id hst.hyperedges).isSome := by
        rw [horig]; rfl
      have hnone : dlookup el.id hst.nodes = none :=
        hdh (el.id, orig) (dlookup_mem horig)
      constructor
      · intro hflag
        constructor
        · intro hin
          rw [hhl, if_pos ⟨hflag, (hch' el.id).mpr ⟨hflag, hin, hnone, hsome⟩⟩]
        · intro hout
          rw [hhl, if_neg]
          rintro ⟨-, hmem⟩
          exact hout ((hch' el.id).mp hmem).2.1
      · intro hflag
        rw [hhl, if_neg]
        rintro ⟨hc, -⟩
        rw [hflag] at hc
        cases hc
  · -- List Store
    intro p hp
    have h0 : ids.isEmpty = false := by
      cases ids with
      | nil => exact absurd rfl hids
      | cons a l => rfl
    rw [show lst.get_sample ids hops flag =
        (if flag then
          ⟨(ids.filterMap (fun item_id => dlookup item_id lst.items)).map (fun it =>
            if it.id ∈ ids then { it with highlighted := some true } else it)⟩
        else ⟨ids.filterMap (fun item_id => dlookup item_id lst.items)⟩ : LSample) by
      simp [ListStorage.get_sample, h0]] at hp
    cases flag with
    | false =>
      rw [if_neg (by simp)] at hp
      rcases List.mem_map.mp hp with ⟨el, hel, rfl⟩
      rcases List.mem_filterMap.mp hel with ⟨nid, -, hf⟩
      cases hl : dlookup nid lst.items with
      | none => rw [hl] at hf; simp at hf
      | some e =>
        rw [hl] at hf
        simp only [Option.some.injEq] at hf
        subst hf
        have hhl : e.highlighted = none := (hlwf (nid, e) (dlookup_mem hl)).2
        exact ⟨fun hc => Bool.noConfusion hc, fun _ => hhl⟩
    | true =>
      rw [if_pos rfl] at hp
      rcases List.mem_map.mp hp with ⟨el2, hel2, rfl⟩
      rcases List.mem_map.mp hel2 with ⟨it, hit, rfl⟩
      rcases List.mem_filterMap.mp hit with ⟨nid, hnid, hf⟩
      cases hl : dlookup nid lst.items with
      | none => rw [hl] at hf; simp at hf
      | some e =>
        rw [hl] at hf
        simp only [Option.some.injEq] at hf
        subst hf
        have hid : e.id = nid := (hlwf (nid, e) (dlookup_mem hl)).1
        have hin : e.id ∈ ids := by rw [hid]; exact hnid
        rw [if_pos hin]
        refine ⟨fun _ => ⟨fun _ => rfl, fun hout => ?_⟩, fun hc => Bool.noConfusion hc⟩
        exact absurd hin hout
  · -- Node Store
    intro p hp
    have hres : (nst.get_sample ids n flag s3).nodes =
        (nResultIds nst ids n s3).filterMap
          (fun node_id => (dlookup node_id nst.nodes).map (fun e =>
            if flag ∧ node_id ∈ ids then { e with highlighted := some true }
            else e)) := rfl
    rw [hres] at hp
    rcases List.mem_map.mp hp with ⟨el, hel, rfl⟩
    obtain ⟨-, -, hhl⟩ := decorate_spec nst.nodes flag ids hnwf
      (nResultIds nst ids n s3) el hel
    constructor
    · intro hflag
      constructor
      · intro hin
        rw [hhl, if_pos ⟨hflag, hin⟩]
      · intro hout
        rw [hhl, if_neg]
        rintro ⟨-, hmem⟩
        exact hout hmem
    · intro hflag
      rw [hhl, if_neg]
      rintro ⟨hc, -⟩
      rw [hflag] at hc
      cases hc

/-- A small List Store fixture. -/
def lsStore : ListStorage := ListStorage.init [recA, recB] nameOf

/-- Witness for `C6_highlight_correctness` at the concrete fixtures. -/
theorem C6_witness :
    (pathStore = GraphStorage.init [recA, recB, recC, recD]
      [recAB, recBC, recCD] nameOf edgeLabelOf endpointsOf) ∧
    (hgStore = HypergraphStorage.init [recA, recB, recC, recD]
      [he1rec, he2rec] nameOf nameOf membersOf) ∧
    (lsStore = ListStorage.init [recA, recB] nameOf) ∧
    (ndStore = NodeStorage.init [nrecX1, nrecX2, nrecX3] uidOf none) ∧
    ([get_model_id recA, "x1"] ≠ ([] : List String)) ∧
    (∀ p ∈ pathStore.edges, dlookup p.1 pathStore.nodes = none) ∧
    (∀ p ∈ hgStore.hyperedges, dlookup p.1 hgStore.nodes = none) ∧
    (highlightSpec [get_model_id recA, "x1"] true
      ((pathStore.get_sample [get_model_id recA, "x1"] 1 true 0).nodes.map
        (fun e => (e.id, e.highlighted))) ∧
     highlightSpec [get_model_id recA, "x1"] true
      ((pathStore.get_sample [get_model_id recA, "x1"] 1 true 0).edges.map
        (fun e => (e.id, e.highlighted))) ∧
     highlightSpec [get_model_id recA, "x1"] true
      ((hgStore.get_sample [get_model_id recA, "x1"] 1 true 0).nodes.map
        (fun e => (e.id, e.highlighted))) ∧
     highlightSpec [get_model_id recA, "x1"] true
      ((hgStore.get_sample [get_model_id recA, "x1"] 1 true 0).hyperedges.map
        (fun e => (e.id, e.highlighted))) ∧
     highlightSpec [get_model_id recA, "x1"] true
      ((lsStore.get_sample [get_model_id recA, "x1"] 1 true).items.map
        (fun e => (e.id, e.highlighted))) ∧
     highlightSpec [get_model_id recA, "x1"] true
      ((ndStore.get_sample [get_model_id recA, "x1"] 5 true 0).nodes.map
        (fun e => (e.id, e.highlighted)))) :=
  ⟨rfl, rfl, rfl, rfl, by decide, by decide, by decide,
   C6_highlight_correctness
     [recA, recB, recC, recD] [recAB, recBC, recCD] nameOf edgeLabelOf endpointsOf
     [recA, recB, recC, recD] [he1rec, he2rec] nameOf nameOf membersOf
     [recA, recB] nameOf
     [nrecX1, nrecX2, nrecX3] uidOf none
     pathStore rfl hgStore rfl lsStore rfl ndStore rfl
     [get_model_id recA, "x1"] 1 5 true 0 0 0
     (by decide) (by decide) (by decide)⟩

/-! ## C8: pagination -/

theorem range_flatMap_pageSlice {α : Type _} (l : List α) (s : Nat) :
    ∀ n : Nat, (List.range n).flatMap (fun p => pageSlice l p s) = l.take (n * s) := by
  intro n
  induction n with
  | zero => simp
  | succ m ih =>
    rw [List.range_succ, List.flatMap_append, ih, Nat.succ_mul, List.take_add]
    simp [pageSlice]

theorem le_ceil_mul (a s : Nat) (h : 0 < s) : a ≤ (a + s - 1) / s * s := by
  rcases Nat.eq_zero_or_pos a with h0 | h0
  · simp [h0]
  · have h1 : a + s - 1 = (a - 1) + s := by omega
    rw [h1, Nat.add_div_right _ h, Nat.add_mul, Nat.one_mul]
    have h2 := Nat.mod_lt (a - 1) h
    have h3 := Nat.div_add_mod (a - 1) s
    have h4 : (a - 1) / s * s = s * ((a - 1) / s) := Nat.mul_comm _ _
    omega

/-- Concatenating pages `0 .. ⌈len/s⌉ - 1` of the slice view reproduces
the list exactly. -/
theorem pages_concat {α : Type _} (l : List α) (s : Nat) (hs : 0 < s) :
    (List.range ((l.length + s - 1) / s)).flatMap (fun p => pageSlice l p s) = l := by
  rw [range_flatMap_pageSlice]
  exact List.take_of_length_le (le_ceil_mul l.length s hs)

theorem pageSlice_map {α β : Type _} (f : α → β) (l : List α) (p s : Nat) :
    (pageSlice l p s).map f = pageSlice (l.map f) p s := by
  simp [pageSlice, List.map_take, List.map_drop]

/-- Full pagination contract of one `get_all_*_paginated` method over the
stored collection `vals` rendered through `t`: the returned page is the
slice `[page*page_size, page*page_size + page_size)` in stable (insertion)
order, `total` is the collection size, `has_next = page*page_size +
page_size < total`, and concatenating all pages `0 .. ⌈total/s⌉ - 1`
reproduces the full rendered collection exactly once each, in order. -/
def paginatedOk {α β : Type _} (vals : List α) (t : α → β)
    (F : Nat → Nat → PageResult β) (page s : Nat) : Prop :=
  (F page s).items = (pageSlice vals page s).map t ∧
  (F page s).page = page ∧
  (F page s).page_size = s ∧
  (F page s).total = vals.length ∧
  ((F page s).has_next = decide (page * s + s < vals.length)) ∧
  (List.range ((vals.length + s - 1) / s)).flatMap (fun q => (F q s).items) =
    vals.map t

theorem paginatedOk_of {α β : Type _} (vals : List α) (t : α → β)
    (F : Nat → Nat → PageResult β)
    (hF : ∀ q s', F q s' = ⟨(pageSlice vals q s').map t, q, s', vals.length,
      decide (q * s' + s' < vals.length)⟩)
    (page s : Nat) (hs : 0 < s) : paginatedOk vals t F page s := by
  refine ⟨by rw [hF], by rw [hF], by rw [hF], by rw [hF], by rw [hF], ?_⟩
  have hitems : ∀ q, (F q s).items = pageSlice (vals.map t) q s := by
    intro q
    rw [hF]
    exact pageSlice_map t vals q s
  simp only [hitems]
  have := pages_concat (vals.map t) s hs
  rw [List.length_map] at this
  exact this

/-- **C8**: for every store, all `page ≥ 0` and `page_size > 0`, the
`get_all_*_paginated` methods return the slice
`[page*page_size, page*page_size + page_size)` of the stored collection in
insertion order, with `total` the collection size and
`has_next = page*page_size + page_size < total`; concatenating pages
`0 .. ⌈total/page_size⌉ - 1` reproduces the full stored collection exactly
once each, in stable order. -/
theorem C8_pagination (gst : GraphStorage) (hst : HypergraphStorage)
    (lst : ListStorage) (nst : NodeStorage) (page s : Nat) (hs : 0 < s) :
    paginatedOk (gst.nodes.map (·.2)) (fun n => ⟨n, n.label, "node"⟩)
      gst.get_all_nodes_paginated page s ∧
    paginatedOk (gst.edges.map (·.2)) (fun e => ⟨e, e.label, "edge"⟩)
      gst.get_all_edges_paginated page s ∧
    paginatedOk (hst.nodes.map (·.2)) (fun n => ⟨n, n.label, "node"⟩)
      hst.get_all_nodes_paginated page s ∧
    paginatedOk (hst.hyperedges.map (·.2)) (fun e => ⟨e, e.label, "hyperedge"⟩)
      hst.get_all_hyperedges_paginated page s ∧
    paginatedOk (lst.item_order.filterMap (fun item_id => dlookup item_id lst.items))
      (fun it => it) lst.get_all_items_paginated page s ∧
    paginatedOk (nst.nodes.map (·.2)) (fun n => ⟨n, n.label, "node"⟩)
      nst.get_all_nodes_paginated page s := by
  refine ⟨?_, ?_, ?_, ?_, ?_, ?_⟩
  · exact paginatedOk_of _ _ _ (fun q s' => rfl) page s hs
  · exact paginatedOk_of _ _ _ (fun q s' => rfl) page s hs
  · exact paginatedOk_of _ _ _ (fun q s' => rfl) page s hs
  · exact paginatedOk_of _ _ _ (fun q s' => rfl) page s hs
  · exact paginatedOk_of _ _ _ (fun q s' => by
      simp [ListStorage.get_all_items_paginated, List.map_id, pageSlice]) page s hs
  · exact paginatedOk_of _ _ _ (fun q s' => rfl) page s hs

/-- Witness for `C8_pagination` at the concrete fixtures with
`page_size = 2`. -/
theorem C8_witness :
    0 < 2 ∧
    (paginatedOk (pathStore.nodes.map (·.2)) (fun n => ⟨n, n.label, "node"⟩)
      pathStore.get_all_nodes_paginated 1 2 ∧
    paginatedOk (pathStore.edges.map (·.2)) (fun e => ⟨e, e.label, "edge"⟩)
      pathStore.get_all_edges_paginated 1 2 ∧
    paginatedOk (hgStore.nodes.map (·.2)) (fun n => ⟨n, n.label, "node"⟩)
      hgStore.get_all_nodes_paginated 1 2 ∧
    paginatedOk (hgStore.hyperedges.map (·.2)) (fun e => ⟨e, e.label, "hyperedge"⟩)
      hgStore.get_all_hyperedges_paginated 1 2 ∧
    paginatedOk (lsStore.item_order.filterMap
        (fun item_id => dlookup item_id lsStore.items))
      (fun it => it) lsStore.get_all_items_paginated 1 2 ∧
    paginatedOk (ndStore.nodes.map (·.2)) (fun n => ⟨n, n.label, "node"⟩)
      ndStore.get_all_nodes_paginated 1 2) :=
  ⟨by decide, C8_pagination pathStore hgStore lsStore ndStore 1 2 (by decide)⟩

/-! ## C10: identity derivation as a content hash -/

theorem toBytesBE_length (k n : Nat) : (toBytesBE k n).length = k := by
  simp [toBytesBE]

theorem toBytesBE_lt (k n : Nat) : ∀ b ∈ toBytesBE k n, b < 256 := by
  intro b hb
  simp [toBytesBE] at hb
  obtain ⟨i, hi, rfl⟩ := hb
  exact Nat.mod_lt _ (by omega)

theorem sha256Bytes_length (msg : List Nat) : (sha256Bytes msg).length = 32 := by
  simp [sha256Bytes, toBytesBE_length]

theorem sha256Bytes_lt (msg : List Nat) : ∀ b ∈ sha256Bytes msg, b < 256 := by
  intro b hb
  simp only [sha256Bytes, List.mem_append] at hb
  rcases hb with ((((((h | h) | h) | h) | h) | h) | h) | h <;>
    exact toBytesBE_lt 4 _ b h

theorem flatMap_hex_length (l : List Nat) :
    (l.flatMap (fun b => [hexDigit (b / 16), hexDigit (b % 16)])).length =
      2 * l.length := by
  induction l with
  | nil => rfl
  | cons b t ih => simp [List.flatMap_cons, ih]; omega

theorem sha256HexChars_length (msg : List Nat) :
    (sha256HexChars msg).length = 64 := by
  rw [sha256HexChars, flatMap_hex_length, sha256Bytes_length]

/-- Every derived short ID has exactly 6 characters: the code truncates the
64-character hexdigest with `[:6]`. -/
theorem short_id_length (s : String) : (short_id_from_str s).length = 6 := by
  have h := sha256HexChars_length (utf8Bytes s)
  simp [short_id_from_str, String.length, h]

/-- The lowercase hex alphabet of `hexdigest()`. -/
def hexChars : List Char := "0123456789abcdef".data

theorem hexDigit_mem : ∀ n < 16, hexDigit n ∈ hexChars := by
  decide

theorem short_id_chars (s : String) :
    ∀ c ∈ (short_id_from_str s).data,
      c ∈ hexChars := by
  intro c hc
  rw [short_id_from_str] at hc
  have hc' : c ∈ (sha256HexChars (utf8Bytes s)).take 6 := hc
  have hc2 := List.mem_of_mem_take hc'
  rw [sha256HexChars] at hc2
  simp [List.mem_flatMap] at hc2
  obtain ⟨b, hb, hcb⟩ := hc2
  have hblt := sha256Bytes_lt (utf8Bytes s) b hb
  rcases hcb with rfl | rfl
  · exact hexDigit_mem _ (by omega)
  · exact hexDigit_mem _ (by omega)

/-- **C10 counterexample**: the claim says IDs are an *8*-hex-digit
truncation of the content hash; `short_id_from_str` in
`src/ontosight/utils.py` takes `hexdigest()[:6]`, so every derived ID has
6 hex digits, not 8 — here on the concrete input `"a"`. -/
theorem C10_counterexample :
    (short_id_from_str "a").length = 6 ∧
    ¬(short_id_from_str "a").length = 8 := by
  constructor
  · exact short_id_length "a"
  · rw [short_id_length "a"]; decide

/-- **C10 (amended)**: ID derivation is a deterministic content hash —
records with the same serialized content always get the same ID (in
particular deriving twice yields the same ID), every derived ID is exactly
**6** lowercase hex digits (the `hexdigest()[:6]` truncation, not 8), and
records with different serialized content get different IDs up to the
collision probability of that truncation — witnessed concretely by the
distinct records `{name: A}` and `{name: B}` receiving distinct IDs. -/
theorem C10_amended_content_hash :
    (∀ r1 r2 : Record, serializeRecord r1 = serializeRecord r2 →
      get_model_id r1 = get_model_id r2) ∧
    (∀ s : String, (short_id_from_str s).length = 6) ∧
    (∀ s : String, ∀ c ∈ (short_id_from_str s).data,
      c ∈ hexChars) ∧
    get_model_id recA ≠ get_model_id recB := by
  refine ⟨?_, short_id_length, short_id_chars, by decide⟩
  intro r1 r2 h
  rw [get_model_id, get_model_id, h]
